import Mathlib

/-!
Verification development for the depth-first property traversal engine
(package `dfpt`): a shallow embedding of the dispatch-table construction
(`NewTraveller`), the matcher/engine (`Traveller._call`, `Traveller._traverse`,
`Traveller.Traverse`), the default and tag-driven property resolvers, and the
method-name classifier (`ItemType.Which`, `ItemType.IsValidWithReceiver`).

Go values are modelled as finite trees (`Val`); pointer indirection through a
store, which is needed to represent cyclic Go values, is modelled separately
(`HeapModel`).  Handler methods of the adapter are modelled as pure functions
returning the same data the Go methods return (`error`, or `(goin bool, err
error)` for container methods); every handler invocation performed by the
engine is recorded as an `Event`, so the event trace is the observable
behaviour of a walk.
-/

namespace Dfpt

/-- Coarse runtime categories, mirroring `reflect.Kind`. -/
inductive Kind where
  | invalid
  | bool
  | int
  | int8
  | int16
  | int32
  | int64
  | uint
  | uint8
  | uint16
  | uint32
  | uint64
  | uintptr
  | float32
  | float64
  | complex64
  | complex128
  | array
  | chan
  | func
  | iface
  | map
  | ptr
  | slice
  | string
  | struct
  | unsafePointer
deriving DecidableEq, Repr

/-- The `_containers` set of the source: kinds treated as containers. -/
def isContainerKind : Kind → Bool
  | .array => true
  | .map => true
  | .ptr => true
  | .slice => true
  | .struct => true
  | _ => false

/-- A Go value, modelled as a finite tree.  Each constructor carries the
value's concrete type name (standing for `reflect.Type` identity).  A struct
field is `(name, exported, value)`; `exported` models `PkgPath == ""`.
`none` for a pointer / slice / map models the nil value. -/
inductive Val where
  | scalar (ty : String) (k : Kind)
  | ptr (ty : String) (elem : Option Val)
  | slice (ty : String) (elems : Option (List Val))
  | arr (ty : String) (elems : List Val)
  | mp (ty : String) (pairs : Option (List (Val × Val)))
  | strct (ty : String) (fields : List (String × Bool × Val))

/-- The `reflect.Kind` of a modelled value. -/
def Val.kind : Val → Kind
  | .scalar _ k => k
  | .ptr _ _ => .ptr
  | .slice _ _ => .slice
  | .arr _ _ => .array
  | .mp _ _ => .map
  | .strct _ _ => .struct

/-- The concrete type name of a modelled value. -/
def Val.tyName : Val → String
  | .scalar t _ => t
  | .ptr t _ => t
  | .slice t _ => t
  | .arr t _ => t
  | .mp t _ => t
  | .strct t _ => t

/-- Mirrors `val.Type().Kind() == reflect.Ptr && val.IsNil()`. -/
def Val.isNilPtr : Val → Bool
  | .ptr _ none => true
  | _ => false

/-- Errors produced by the engine or returned by handlers. -/
inductive Err where
  | handler (tag : String)
  | missingBinding (ty : String) (k : Kind)
  | containerEndFailed (e : Err)
  | invalidValue
  | internalPanic (tag : String)
deriving DecidableEq, Repr

/-- One handler invocation performed by the engine: a plain binding call, a
container start call (`startOrEnd = true` in the source), or a container end
call (`startOrEnd = false`). -/
inductive Event where
  | call (method : String) (depth : Nat) (index : Int) (name : String) (v : Val)
  | start (method : String) (depth : Nat) (index : Int) (size : Nat) (name : String) (v : Val)
  | endc (method : String) (depth : Nat) (index : Int) (size : Nat) (name : String) (v : Val)

/-- The value argument a handler invocation received. -/
def Event.value : Event → Val
  | .call _ _ _ _ v => v
  | .start _ _ _ _ _ v => v
  | .endc _ _ _ _ _ v => v

/-- Whether an event is a container end call. -/
def Event.isEnd : Event → Bool
  | .endc _ _ _ _ _ _ => true
  | _ => false

/-- `Property` of the source: one visitable slot of a struct. -/
structure Property where
  Index : Int
  Name : String
  IndexForReal : Int
deriving DecidableEq, Repr

/-- Behaviour of a non-container binding method: it receives
`(depth, indexInParent, propertyName, property)` and returns an error. -/
def NormalFn : Type := Nat → Int → String → Val → Option Err

/-- Behaviour of a container binding method: it receives
`(depth, indexInParent, size, startOrEnd, propertyName, property)` and
returns `(goin, err)`. -/
def ContainerFn : Type := Nat → Int → Nat → Bool → String → Val → Bool × Option Err

/-- `TraverseConf` of the source. -/
structure Conf where
  ignoreMissedBinding : Bool := false
  propertier : Option (Val → Nat × List Property) := none
  containerEnd : Bool := false
  ptrAutoGoIn : Bool := false

/-- Mirrors `t.conf != nil && t.conf.IgnoreMissedBinding`. -/
def confIgnoreMissed : Option Conf → Bool
  | none => false
  | some c => c.ignoreMissedBinding

/-- Mirrors `t.conf != nil && t.conf.ContainerEnd`. -/
def confContainerEnd : Option Conf → Bool
  | none => false
  | some c => c.containerEnd

/-- Mirrors `t.conf != nil && t.conf.PtrAutoGoIn`. -/
def confPtrAutoGoIn : Option Conf → Bool
  | none => false
  | some c => c.ptrAutoGoIn

/-- Mirrors `t.conf != nil && t.conf.Propertier != nil`. -/
def confPropertier : Option Conf → Option (Val → Nat × List Property)
  | none => none
  | some c => c.propertier

/-- One entry of the ordered descriptor table (`orderItem`), with the bound
method's behaviour attached (in the source the callable is fetched from
`typeMethods` / `kindMethods`; construction guarantees the lookup succeeds, so
the embedding carries the behaviour in the item).  A type-bound item carries
the abstract matching test derived from `Implements` / `AssignableTo` of the
bound type, applied to the value's type name and kind. -/
inductive Item where
  | typeItem (n : String) (tmatch : String → Kind → Bool) (fn : NormalFn)
  | kindItem (n : String) (k : Kind) (fn : NormalFn)
  | contItem (n : String) (k : Kind) (fn : ContainerFn)

/-- `orderItem.match` restricted to the data dispatch needs: does the item
match the value?  Type-bound items use their abstract type test; kind-bound
items (container or not) require kind equality. -/
def itemMatches : Item → Val → Bool
  | .typeItem _ tm _, v => tm v.tyName v.kind
  | .kindItem _ k _, v => v.kind == k
  | .contItem _ k _, v => v.kind == k

/-- `parentInfo` of the source: transient per-container traversal state. -/
structure Frame where
  depth : Nat
  size : Nat
  offset : Int
  structFields : List Property
  bindingName : String
  binding : ContainerFn

/-- The built registry (`Traveller`): configuration, the optional nil-pointer
binding, and the ordered descriptor table. -/
structure Traveller where
  conf : Option Conf
  nilPtrMethod : Option NormalFn
  typeOrder : List Item

/-- `parentInfo.nextDepth`. -/
def nextDepth : Option Frame → Nat
  | none => 1
  | some p => p.depth + 1

/-- `parentInfo.callIns` (minus the value itself): the `(depth, indexInParent,
propertyName)` arguments passed to a non-container handler.  With no valid
parent the index is `-1`; inside a struct the index is the property's
`IndexForReal` when set, else its `Index`, and the name is the field name. -/
def callArgs : Option Frame → Nat × Int × String
  | none => (0, -1, "")
  | some p =>
    if p.structFields.length > 0 ∧ 0 ≤ p.offset ∧ p.offset < p.structFields.length then
      let f := p.structFields.getD p.offset.toNat ⟨-1, "", -1⟩
      (p.depth, if f.IndexForReal ≥ 0 then f.IndexForReal else f.Index, f.Name)
    else (p.depth, p.offset, "")

/-- `parentInfo._containerIns` (minus size, startOrEnd and the value): the
`(depth, indexInParent, propertyName)` arguments of a container handler call.
Unlike `callIns` the index is always the parent's raw offset. -/
def containerArgs : Option Frame → Nat × Int × String
  | none => (0, -1, "")
  | some p =>
    if p.structFields.length > 0 ∧ 0 ≤ p.offset ∧ p.offset < p.structFields.length then
      (p.depth, p.offset, (p.structFields.getD p.offset.toNat ⟨-1, "", -1⟩).Name)
    else (p.depth, p.offset, "")

/-- The default policy of `Traveller._structProperties`: enumerate exported
fields in declaration order, `Index` = declaration position,
`IndexForReal` = -1. -/
def defaultProps : Nat → List (String × Bool × Val) → List Property
  | _, [] => []
  | i, f :: rest =>
    if f.2.1 then ⟨(i : Int), f.1, -1⟩ :: defaultProps (i + 1) rest
    else defaultProps (i + 1) rest

/-- `Traveller._structProperties`: the configured propertier if any, else the
default policy. -/
def _structProperties (conf : Option Conf) (v : Val) : Nat × List Property :=
  match confPropertier conf with
  | some f => f v
  | none =>
    match v with
    | .strct _ fs =>
      let ps := defaultProps 0 fs
      (ps.length, ps)
    | _ => (0, [])

/-- Child count (and member list, for structs) for a container value, as
computed inside `Traveller._call`: array length, slice length (0 when nil),
twice the map key count (0 when nil), the property resolver for structs, and
1 / 0 for a non-nil / nil pointer. -/
def containerSizeFields (conf : Option Conf) (v : Val) : Nat × List Property :=
  match v with
  | .arr _ es => (es.length, [])
  | .slice _ none => (0, [])
  | .slice _ (some es) => (es.length, [])
  | .mp _ none => (0, [])
  | .mp _ (some ps) => (2 * ps.length, [])
  | .strct _ _ => _structProperties conf v
  | .ptr _ none => (0, [])
  | .ptr _ (some _) => (1, [])
  | _ => (0, [])

/-- Result of `Traveller._call`: stop with an optional error (handler called
and declined / errored, value skipped, or nil pointer intercepted), go into a
container with a fresh frame, or dereference-and-retry (`reEnter`). -/
inductive CallRes where
  | stop (err : Option Err)
  | goin (fr : Frame)
  | reenter

/-- `Traveller._call`: resolve and invoke the handler for one value.  The nil
pointer binding, when present, intercepts nil pointers before the ordered
table is consulted.  Otherwise the first matching item of `typeOrder` wins:
non-container matches invoke the bound method and stop; container matches
compute the size / member list, build the child frame, and invoke the start
call, the handler's `goin` deciding whether children are visited.  If nothing
matches: with `PtrAutoGoIn`, a non-nil pointer yields `reenter` and a nil
pointer is skipped; otherwise the missing-binding policy applies. -/
def _call (t : Traveller) (parent : Option Frame) (v : Val) : List Event × CallRes :=
  match t.nilPtrMethod, v.isNilPtr with
  | some f, true =>
    let a := callArgs parent
    ([Event.call "ForNilPtr" a.1 a.2.1 a.2.2 v], .stop (f a.1 a.2.1 a.2.2 v))
  | _, _ =>
    match t.typeOrder.find? (fun it => itemMatches it v) with
    | some (.typeItem n _ f) =>
      let a := callArgs parent
      ([Event.call n a.1 a.2.1 a.2.2 v], .stop (f a.1 a.2.1 a.2.2 v))
    | some (.kindItem n _ f) =>
      let a := callArgs parent
      ([Event.call n a.1 a.2.1 a.2.2 v], .stop (f a.1 a.2.1 a.2.2 v))
    | some (.contItem n _ f) =>
      let sf := containerSizeFields t.conf v
      let fr : Frame := ⟨nextDepth parent, sf.1, -1, sf.2, n, f⟩
      let a := containerArgs parent
      let r := f a.1 a.2.1 sf.1 true a.2.2 v
      ([Event.start n a.1 a.2.1 sf.1 a.2.2 v],
        match r.2 with
        | some e => .stop (some e)
        | none => if r.1 then .goin fr else .stop none)
    | none =>
      if confPtrAutoGoIn t.conf && v.kind == Kind.ptr then
        if v.isNilPtr then ([], .stop none) else ([], .reenter)
      else if confIgnoreMissed t.conf then ([], .stop none)
      else ([], .stop (some (.missingBinding v.tyName v.kind)))

mutual

/-- `Traveller._traverse`: resolve the value (looping on dereference-and-retry
by recursing into the pointee with the same parent frame), then, for a
container the handler agreed to enter, visit the children per kind, and
finally, when `ContainerEnd` is configured, invoke the container end call,
whose `goin` return is ignored and whose error is wrapped. -/
def _traverse (t : Traveller) (parent : Option Frame) (v : Val) : List Event × Option Err :=
  match _call t parent v with
  | (evs, .stop e) => (evs, e)
  | (evs, .reenter) =>
    match v with
    | .ptr _ (some e) => _traverse t parent e
    | _ => (evs, some (.internalPanic "reenter need a valid value"))
  | (evs, .goin fr) =>
    let c := _travChildren t fr v
    match c.2 with
    | some e => (evs ++ c.1, some e)
    | none =>
      if confContainerEnd t.conf then
        let a := containerArgs parent
        let e2 := (fr.binding a.1 a.2.1 fr.size false a.2.2 v).2
        (evs ++ c.1 ++ [Event.endc fr.bindingName a.1 a.2.1 fr.size a.2.2 v],
          match e2 with
          | some er => some (.containerEndFailed er)
          | none => none)
      else (evs ++ c.1, none)
termination_by (sizeOf v, 1, 0)

/-- The child-visiting switch of `_traverse` for a container value the
handler agreed to enter: per kind, the corresponding child loop; the map loop
re-checks the enumerated key count against the previously measured size; the
pointer recursion visits the single referent at offset 0; a non-container
value reaching this point is the source's `panic("unknown status")`. -/
def _travChildren (t : Traveller) (fr : Frame) (v : Val) : List Event × Option Err :=
  match v with
  | .arr _ es => _childSeq t fr 0 es
  | .slice _ none => ([], none)
  | .slice _ (some es) => _childSeq t fr 0 es
  | .mp _ none =>
    if fr.size > 0 then ([], some (.internalPanic "map keys size mismatch"))
    else ([], none)
  | .mp _ (some ps) =>
    if fr.size > 0 then
      if 2 * ps.length ≠ fr.size then ([], some (.internalPanic "map keys size mismatch"))
      else _childMap t fr 0 ps
    else ([], none)
  | .strct _ fs => _childStruct t fr 0 fr.structFields fs
  | .ptr _ (some e) =>
    if fr.size > 0 then _traverse t (some { fr with offset := 0 }) e
    else ([], none)
  | .ptr _ none =>
    if fr.size > 0 then ([], some .invalidValue)
    else ([], none)
  | .scalar _ _ => ([], some (.internalPanic "unknown status"))
termination_by (sizeOf v, 0, 0)

/-- The `reflect.Array` / `reflect.Slice` child loop of `_traverse`: visit each
element at offset `i`, aborting at the first error. -/
def _childSeq (t : Traveller) (fr : Frame) (i : Nat) (es : List Val) : List Event × Option Err :=
  match es with
  | [] => ([], none)
  | e :: rest =>
    let c := _traverse t (some { fr with offset := (i : Int) }) e
    match c.2 with
    | some er => (c.1, some er)
    | none =>
      let c2 := _childSeq t fr (i + 1) rest
      (c.1 ++ c2.1, c2.2)
termination_by (sizeOf es, 0, 0)

/-- The `reflect.Map` child loop of `_traverse`: for pair `i`, visit the key at
offset `2 i` then the value at offset `2 i + 1`, aborting at the first
error. -/
def _childMap (t : Traveller) (fr : Frame) (i : Nat) (ps : List (Val × Val)) : List Event × Option Err :=
  match ps with
  | [] => ([], none)
  | p :: rest =>
    let c1 := _traverse t (some { fr with offset := (2 * i : Int) }) p.1
    match c1.2 with
    | some er => (c1.1, some er)
    | none =>
      let c2 := _traverse t (some { fr with offset := (2 * i + 1 : Int) }) p.2
      match c2.2 with
      | some er => (c1.1 ++ c2.1, some er)
      | none =>
        let c3 := _childMap t fr (i + 1) rest
        (c1.1 ++ c2.1 ++ c3.1, c3.2)
termination_by (sizeOf ps, 0, 0)
decreasing_by
  · apply Prod.Lex.left
    obtain ⟨a, b⟩ := p
    simp only [List.cons.sizeOf_spec, Prod.mk.sizeOf_spec]
    omega
  · apply Prod.Lex.left
    obtain ⟨a, b⟩ := p
    simp only [List.cons.sizeOf_spec, Prod.mk.sizeOf_spec]
    omega
  · apply Prod.Lex.left
    simp only [List.cons.sizeOf_spec]
    omega

/-- The `reflect.Struct` child loop of `_traverse`: iterate the resolved
member list, skipping placeholders (`Index < 0`), fetching each member's
backing field by `Index`, visiting it at the member's list position as offset,
aborting at the first error. -/
def _childStruct (t : Traveller) (fr : Frame) (i : Nat) (props : List Property)
    (fs : List (String × Bool × Val)) : List Event × Option Err :=
  match props with
  | [] => ([], none)
  | p :: rest =>
    if p.Index < 0 then _childStruct t fr (i + 1) rest fs
    else
      match h : fs.get? p.Index.toNat with
      | none => ([], some (.internalPanic "field index out of range"))
      | some f =>
        let c := _traverse t (some { fr with offset := (i : Int) }) f.2.2
        match c.2 with
        | some er => (c.1, some er)
        | none =>
          let c2 := _childStruct t fr (i + 1) rest fs
          (c.1 ++ c2.1, c2.2)
termination_by (sizeOf fs, 0, props.length)
decreasing_by
  · apply Prod.Lex.right
    apply Prod.Lex.right
    simp only [List.length_cons]
    omega
  · apply Prod.Lex.left
    have hm : f ∈ fs := List.get?_mem h
    have h1 : sizeOf f < sizeOf fs := List.sizeOf_lt_of_mem hm
    have h2 : sizeOf f.2.2 < sizeOf f := by
      obtain ⟨a, b, c⟩ := f
      simp
      omega
    omega
  · apply Prod.Lex.right
    apply Prod.Lex.right
    simp only [List.length_cons]
    omega

end

/-- `Traveller.Traverse`: an invalid root (`none`, modelling
`reflect.ValueOf(obj)` being invalid) succeeds immediately with no handler
invocation; otherwise the root is traversed with no parent frame. -/
def Traverse (t : Traveller) (obj : Option Val) : List Event × Option Err :=
  match obj with
  | none => ([], none)
  | some v => _traverse t none v

mutual

/-- Specification-side depth-first pre-order member enumeration, written from
the spec's walk-order description: a value is listed before its children;
sequence elements in index order; map pairs key then value; struct members are
the exported fields in declaration order; a non-nil pointer's single
referent. -/
def preorder (v : Val) : List Val :=
  match v with
  | .scalar _ _ => [v]
  | .ptr _ none => [v]
  | .ptr ty (some e) => Val.ptr ty (some e) :: preorder e
  | .slice _ none => [v]
  | .slice ty (some es) => Val.slice ty (some es) :: preList es
  | .arr ty es => Val.arr ty es :: preList es
  | .mp _ none => [v]
  | .mp ty (some ps) => Val.mp ty (some ps) :: prePairs ps
  | .strct ty fs => Val.strct ty fs :: preFields fs
termination_by (sizeOf v, 1)

/-- Pre-order enumeration of a list of sibling values. -/
def preList (es : List Val) : List Val :=
  match es with
  | [] => []
  | e :: r => preorder e ++ preList r
termination_by (sizeOf es, 0)

/-- Pre-order enumeration of map pairs, key before value. -/
def prePairs (ps : List (Val × Val)) : List Val :=
  match ps with
  | [] => []
  | p :: r => preorder p.1 ++ preorder p.2 ++ prePairs r
termination_by (sizeOf ps, 0)
decreasing_by
  · apply Prod.Lex.left
    obtain ⟨a, b⟩ := p
    simp only [List.cons.sizeOf_spec, Prod.mk.sizeOf_spec]
    omega
  · apply Prod.Lex.left
    obtain ⟨a, b⟩ := p
    simp only [List.cons.sizeOf_spec, Prod.mk.sizeOf_spec]
    omega
  · apply Prod.Lex.left
    simp only [List.cons.sizeOf_spec]
    omega

/-- Pre-order enumeration of struct fields: exported fields only. -/
def preFields (fs : List (String × Bool × Val)) : List Val :=
  match fs with
  | [] => []
  | f :: r => (if f.2.1 then preorder f.2.2 else []) ++ preFields r
termination_by (sizeOf fs, 0)
decreasing_by
  · apply Prod.Lex.left
    obtain ⟨a, b, c⟩ := f
    simp only [List.cons.sizeOf_spec, Prod.mk.sizeOf_spec]
    omega
  · apply Prod.Lex.left
    simp only [List.cons.sizeOf_spec]
    omega

end

mutual

/-- Well-formedness of a modelled value: a scalar constructor never carries a
container kind (every real Go value satisfies this; it rules out model-only
junk such as a childless value whose kind claims to be a container). -/
def wf (v : Val) : Bool :=
  match v with
  | .scalar _ k => !(isContainerKind k)
  | .ptr _ none => true
  | .ptr _ (some e) => wf e
  | .slice _ none => true
  | .slice _ (some es) => wfList es
  | .arr _ es => wfList es
  | .mp _ none => true
  | .mp _ (some ps) => wfPairs ps
  | .strct _ fs => wfFields fs
termination_by (sizeOf v, 1)

/-- Well-formedness of a list of values. -/
def wfList (es : List Val) : Bool :=
  match es with
  | [] => true
  | e :: r => wf e && wfList r
termination_by (sizeOf es, 0)

/-- Well-formedness of map pairs. -/
def wfPairs (ps : List (Val × Val)) : Bool :=
  match ps with
  | [] => true
  | p :: r => wf p.1 && wf p.2 && wfPairs r
termination_by (sizeOf ps, 0)
decreasing_by
  · apply Prod.Lex.left
    obtain ⟨a, b⟩ := p
    simp only [List.cons.sizeOf_spec, Prod.mk.sizeOf_spec]
    omega
  · apply Prod.Lex.left
    obtain ⟨a, b⟩ := p
    simp only [List.cons.sizeOf_spec, Prod.mk.sizeOf_spec]
    omega
  · apply Prod.Lex.left
    simp only [List.cons.sizeOf_spec]
    omega

/-- Well-formedness of struct fields (all field values, exported or not). -/
def wfFields (fs : List (String × Bool × Val)) : Bool :=
  match fs with
  | [] => true
  | f :: r => wf f.2.2 && wfFields r
termination_by (sizeOf fs, 0)
decreasing_by
  · apply Prod.Lex.left
    obtain ⟨a, b, c⟩ := f
    simp only [List.cons.sizeOf_spec, Prod.mk.sizeOf_spec]
    omega
  · apply Prod.Lex.left
    simp only [List.cons.sizeOf_spec]
    omega

end

/-- A handler that accepts and never errors. -/
def okNormal : NormalFn := fun _ _ _ _ => none

/-- A container handler that always continues and never errors. -/
def okCont : ContainerFn := fun _ _ _ _ _ _ => (true, none)

/-- A registry binding every value: one type-bound item accepting every
non-container type (as an `interface{}`-style `ForAssign` binding would) and
one container item per container kind, all always continuing and never
erroring; no nil-pointer binding, default (nil) configuration. -/
def univReg : Traveller :=
  { conf := none
    nilPtrMethod := none
    typeOrder := [Item.typeItem "ForAssignAny" (fun _ k => !(isContainerKind k)) okNormal,
                  Item.contItem "ForContainerArray" Kind.array okCont,
                  Item.contItem "ForContainerSlice" Kind.slice okCont,
                  Item.contItem "ForContainerMap" Kind.map okCont,
                  Item.contItem "ForContainerStruct" Kind.struct okCont,
                  Item.contItem "ForContainerPtr" Kind.ptr okCont] }

theorem beqKind_eq_decide (a b : Kind) : (a == b) = decide (a = b) := rfl

theorem call_univ_scalar (parent : Option Frame) (ty : String) (k : Kind)
    (h : isContainerKind k = false) :
    _call univReg parent (Val.scalar ty k) =
      ([Event.call "ForAssignAny" (callArgs parent).1 (callArgs parent).2.1 (callArgs parent).2.2
          (Val.scalar ty k)], .stop none) := by
  simp [_call, univReg, itemMatches, Val.isNilPtr, Val.kind, List.find?, h, okNormal]

theorem call_univ_arr (parent : Option Frame) (ty : String) (es : List Val) :
    _call univReg parent (Val.arr ty es) =
      ([Event.start "ForContainerArray" (containerArgs parent).1 (containerArgs parent).2.1
          es.length (containerArgs parent).2.2 (Val.arr ty es)],
       .goin ⟨nextDepth parent, es.length, -1, [], "ForContainerArray", okCont⟩) := by
  simp [_call, univReg, itemMatches, Val.isNilPtr, Val.kind, List.find?, okCont, isContainerKind,
    beqKind_eq_decide, containerSizeFields, nextDepth]

theorem call_univ_slice_none (parent : Option Frame) (ty : String) :
    _call univReg parent (Val.slice ty none) =
      ([Event.start "ForContainerSlice" (containerArgs parent).1 (containerArgs parent).2.1
          0 (containerArgs parent).2.2 (Val.slice ty none)],
       .goin ⟨nextDepth parent, 0, -1, [], "ForContainerSlice", okCont⟩) := by
  simp [_call, univReg, itemMatches, Val.isNilPtr, Val.kind, List.find?, okCont, isContainerKind,
    beqKind_eq_decide, containerSizeFields, nextDepth]

theorem call_univ_slice_some (parent : Option Frame) (ty : String) (es : List Val) :
    _call univReg parent (Val.slice ty (some es)) =
      ([Event.start "ForContainerSlice" (containerArgs parent).1 (containerArgs parent).2.1
          es.length (containerArgs parent).2.2 (Val.slice ty (some es))],
       .goin ⟨nextDepth parent, es.length, -1, [], "ForContainerSlice", okCont⟩) := by
  simp [_call, univReg, itemMatches, Val.isNilPtr, Val.kind, List.find?, okCont, isContainerKind,
    beqKind_eq_decide, containerSizeFields, nextDepth]

theorem call_univ_mp_none (parent : Option Frame) (ty : String) :
    _call univReg parent (Val.mp ty none) =
      ([Event.start "ForContainerMap" (containerArgs parent).1 (containerArgs parent).2.1
          0 (containerArgs parent).2.2 (Val.mp ty none)],
       .goin ⟨nextDepth parent, 0, -1, [], "ForContainerMap", okCont⟩) := by
  simp [_call, univReg, itemMatches, Val.isNilPtr, Val.kind, List.find?, okCont, isContainerKind,
    beqKind_eq_decide, containerSizeFields, nextDepth]

theorem call_univ_mp_some (parent : Option Frame) (ty : String) (ps : List (Val × Val)) :
    _call univReg parent (Val.mp ty (some ps)) =
      ([Event.start "ForContainerMap" (containerArgs parent).1 (containerArgs parent).2.1
          (2 * ps.length) (containerArgs parent).2.2 (Val.mp ty (some ps))],
       .goin ⟨nextDepth parent, 2 * ps.length, -1, [], "ForContainerMap", okCont⟩) := by
  simp [_call, univReg, itemMatches, Val.isNilPtr, Val.kind, List.find?, okCont, isContainerKind,
    beqKind_eq_decide, containerSizeFields, nextDepth]

theorem call_univ_strct (parent : Option Frame) (ty : String) (fs : List (String × Bool × Val)) :
    _call univReg parent (Val.strct ty fs) =
      ([Event.start "ForContainerStruct" (containerArgs parent).1 (containerArgs parent).2.1
          (defaultProps 0 fs).length (containerArgs parent).2.2 (Val.strct ty fs)],
       .goin ⟨nextDepth parent, (defaultProps 0 fs).length, -1, defaultProps 0 fs,
              "ForContainerStruct", okCont⟩) := by
  simp [_call, univReg, itemMatches, Val.isNilPtr, Val.kind, List.find?, okCont, isContainerKind,
    beqKind_eq_decide, containerSizeFields, nextDepth, _structProperties, confPropertier]

theorem call_univ_ptr_none (parent : Option Frame) (ty : String) :
    _call univReg parent (Val.ptr ty none) =
      ([Event.start "ForContainerPtr" (containerArgs parent).1 (containerArgs parent).2.1
          0 (containerArgs parent).2.2 (Val.ptr ty none)],
       .goin ⟨nextDepth parent, 0, -1, [], "ForContainerPtr", okCont⟩) := by
  simp [_call, univReg, itemMatches, Val.isNilPtr, Val.kind, List.find?, okCont, isContainerKind,
    beqKind_eq_decide, containerSizeFields, nextDepth]

theorem call_univ_ptr_some (parent : Option Frame) (ty : String) (e : Val) :
    _call univReg parent (Val.ptr ty (some e)) =
      ([Event.start "ForContainerPtr" (containerArgs parent).1 (containerArgs parent).2.1
          1 (containerArgs parent).2.2 (Val.ptr ty (some e))],
       .goin ⟨nextDepth parent, 1, -1, [], "ForContainerPtr", okCont⟩) := by
  simp [_call, univReg, itemMatches, Val.isNilPtr, Val.kind, List.find?, okCont, isContainerKind,
    beqKind_eq_decide, containerSizeFields, nextDepth]



theorem travChildren_arr (t : Traveller) (fr : Frame) (ty : String) (es : List Val) :
    _travChildren t fr (Val.arr ty es) = _childSeq t fr 0 es := by
  simp [_travChildren]

theorem travChildren_slice (t : Traveller) (fr : Frame) (ty : String) (es : List Val) :
    _travChildren t fr (Val.slice ty (some es)) = _childSeq t fr 0 es := by
  simp [_travChildren]

theorem travChildren_mp (t : Traveller) (fr : Frame) (ty : String) (ps : List (Val × Val))
    (h : fr.size = 2 * ps.length) :
    _travChildren t fr (Val.mp ty (some ps)) = _childMap t fr 0 ps := by
  cases ps with
  | nil => simp [_travChildren, _childMap, h]
  | cons p rest => simp [_travChildren, h]

theorem travChildren_strct (t : Traveller) (fr : Frame) (ty : String)
    (fs : List (String × Bool × Val)) :
    _travChildren t fr (Val.strct ty fs) = _childStruct t fr 0 fr.structFields fs := by
  simp [_travChildren]

theorem travChildren_ptr (t : Traveller) (fr : Frame) (ty : String) (e : Val)
    (h : fr.size = 1) :
    _travChildren t fr (Val.ptr ty (some e)) = _traverse t (some { fr with offset := 0 }) e := by
  simp [_travChildren, h]

theorem travChildren_ptr_none (t : Traveller) (fr : Frame) (ty : String) (h : fr.size = 0) :
    _travChildren t fr (Val.ptr ty none) = ([], none) := by
  simp [_travChildren, h]

theorem get?_of_drop {α : Type} : ∀ (l : List α) (k : Nat) (a : α) (r : List α),
    l.drop k = a :: r → l.get? k = some a := by
  intro l
  induction l with
  | nil => intro k a r h; simp at h
  | cons x xs ih =>
    intro k a r h
    cases k with
    | zero =>
      simp at h
      simp [List.get?, h.1]
    | succ k =>
      simp at h
      rw [List.get?_cons_succ]
      exact ih k a r h

theorem drop_succ_of_drop {α : Type} (l : List α) (k : Nat) (a : α) (r : List α)
    (h : l.drop k = a :: r) : l.drop (k + 1) = r := by
  have h2 : (l.drop k).drop 1 = l.drop (k + 1) := List.drop_drop 1 k l
  rw [h] at h2
  simpa using h2.symm

theorem wfFields_forall : ∀ (fs : List (String × Bool × Val)), wfFields fs = true →
    ∀ f ∈ fs, wf f.2.2 = true := by
  intro fs
  induction fs with
  | nil => simp
  | cons f rest ih =>
    intro h g hg
    rw [wfFields] at h
    simp at h
    rcases List.mem_cons.mp hg with h1 | h1
    · rw [h1]; exact h.1
    · exact ih h.2 g h1

theorem defaultProps_nil_preFields : ∀ (l : List (String × Bool × Val)) (k : Nat),
    defaultProps k l = [] → preFields l = [] := by
  intro l
  induction l with
  | nil => intro k _; rw [preFields]
  | cons f rest ih =>
    intro k h
    rw [defaultProps] at h
    by_cases hx : f.2.1
    · simp [hx] at h
    · simp [hx] at h
      rw [preFields]
      simp [hx, ih (k + 1) h]

theorem defaultProps_cons_elim : ∀ (l : List (String × Bool × Val)) (k : Nat) (p : Property)
    (rest : List Property), defaultProps k l = p :: rest →
    ∃ j f r, l.drop j = f :: r ∧ f.2.1 = true ∧ p = ⟨((k + j : Nat) : Int), f.1, -1⟩ ∧
      rest = defaultProps (k + j + 1) r ∧ preFields l = preorder f.2.2 ++ preFields r := by
  intro l
  induction l with
  | nil => intro k p rest h; rw [defaultProps] at h; simp at h
  | cons f0 l2 ih =>
    intro k p rest h
    rw [defaultProps] at h
    by_cases hx : f0.2.1
    · simp [hx] at h
      refine ⟨0, f0, l2, by simp, hx, ?_, ?_, ?_⟩
      · simp [← h.1]
      · simp [h.2]
      · rw [preFields]; simp [hx]
    · simp [hx] at h
      obtain ⟨j, f, r, hd, hex, hp, hr, hpre⟩ := ih (k + 1) p rest h
      refine ⟨j + 1, f, r, by simpa using hd, hex, ?_, ?_, ?_⟩
      · rw [hp]; congr 1; omega
      · rw [hr]; congr 1; omega
      · rw [preFields]; simp [hx, hpre]

theorem childSeq_univ : ∀ (es : List Val) (fr : Frame) (i : Nat),
    (∀ e ∈ es, ∀ parent, wf e = true →
      ∃ evs, _traverse univReg parent e = (evs, none) ∧ evs.map Event.value = preorder e) →
    wfList es = true →
    ∃ evs, _childSeq univReg fr i es = (evs, none) ∧ evs.map Event.value = preList es := by
  intro es
  induction es with
  | nil =>
    intro fr i _ _
    exact ⟨[], by rw [_childSeq], by rw [preList]; rfl⟩
  | cons e rest ih =>
    intro fr i hIH hwf
    rw [wfList] at hwf
    simp at hwf
    obtain ⟨evs1, h1, m1⟩ := hIH e (by simp) (some { fr with offset := (i : Int) }) hwf.1
    obtain ⟨evs2, h2, m2⟩ := ih fr (i + 1) (fun x hx => hIH x (by simp [hx])) hwf.2
    refine ⟨evs1 ++ evs2, ?_, ?_⟩
    · rw [_childSeq]
      simp [h1, h2]
    · rw [preList]
      simp [m1, m2]

theorem childMap_univ : ∀ (ps : List (Val × Val)) (fr : Frame) (i : Nat),
    (∀ p ∈ ps, ∀ parent,
      (wf p.1 = true → ∃ evs, _traverse univReg parent p.1 = (evs, none) ∧ evs.map Event.value = preorder p.1) ∧
      (wf p.2 = true → ∃ evs, _traverse univReg parent p.2 = (evs, none) ∧ evs.map Event.value = preorder p.2)) →
    wfPairs ps = true →
    ∃ evs, _childMap univReg fr i ps = (evs, none) ∧ evs.map Event.value = prePairs ps := by
  intro ps
  induction ps with
  | nil =>
    intro fr i _ _
    exact ⟨[], by rw [_childMap], by rw [prePairs]; rfl⟩
  | cons p rest ih =>
    intro fr i hIH hwf
    rw [wfPairs] at hwf
    simp at hwf
    obtain ⟨evs1, h1, m1⟩ := (hIH p (by simp) (some { fr with offset := (2 * i : Int) })).1 hwf.1.1
    obtain ⟨evs2, h2, m2⟩ := (hIH p (by simp) (some { fr with offset := (2 * i + 1 : Int) })).2 hwf.1.2
    obtain ⟨evs3, h3, m3⟩ := ih fr (i + 1) (fun x hx => hIH x (by simp [hx])) hwf.2
    refine ⟨evs1 ++ evs2 ++ evs3, ?_, ?_⟩
    · rw [_childMap]
      simp [h1, h2, h3]
    · rw [prePairs]
      simp [m1, m2, m3]

theorem childStruct_univ : ∀ (props : List Property) (fs : List (String × Bool × Val))
    (fr : Frame) (i k : Nat),
    props = defaultProps k (fs.drop k) →
    (∀ f ∈ fs, ∀ parent, wf f.2.2 = true →
      ∃ evs, _traverse univReg parent f.2.2 = (evs, none) ∧ evs.map Event.value = preorder f.2.2) →
    wfFields fs = true →
    ∃ evs, _childStruct univReg fr i props fs = (evs, none) ∧
      evs.map Event.value = preFields (fs.drop k) := by
  intro props
  induction props with
  | nil =>
    intro fs fr i k hp _ _
    refine ⟨[], by rw [_childStruct], ?_⟩
    rw [defaultProps_nil_preFields (fs.drop k) k hp.symm]
    rfl
  | cons p rest ih =>
    intro fs fr i k hp hIH hwf
    obtain ⟨j, f, r, hd, hex, hpp, hr, hpre⟩ := defaultProps_cons_elim (fs.drop k) k p rest hp.symm
    rw [List.drop_drop] at hd
    have hget : fs.get? (k + j) = some f := get?_of_drop fs (k + j) f r hd
    have hd2 : fs.drop (k + j + 1) = r := drop_succ_of_drop fs (k + j) f r hd
    have hidx : p.Index = ((k + j : Nat) : Int) := by rw [hpp]
    have hnneg : ¬ p.Index < 0 := by rw [hidx]; omega
    have htn : p.Index.toNat = k + j := by rw [hidx]; omega
    have hmem : f ∈ fs := List.get?_mem hget
    obtain ⟨evs1, h1, m1⟩ := hIH f hmem (some { fr with offset := (i : Int) })
      (wfFields_forall fs hwf f hmem)
    have hrest : rest = defaultProps (k + j + 1) (fs.drop (k + j + 1)) := by
      rw [hd2, hr]
    obtain ⟨evs2, h2, m2⟩ := ih fs fr (i + 1) (k + j + 1) hrest hIH hwf
    refine ⟨evs1 ++ evs2, ?_, ?_⟩
    · rw [_childStruct]
      simp only [hnneg, if_false, htn]
      split
      · next heq =>
        rw [htn, hget] at heq
        cases heq
      · next g heq =>
        rw [htn, hget] at heq
        cases heq
        simp [h1, h2]
    · rw [hpre]
      rw [hd2] at m2
      simp [m1, m2]



theorem traverse_univ : ∀ (N : Nat) (v : Val) (parent : Option Frame), sizeOf v ≤ N →
    wf v = true →
    ∃ evs, _traverse univReg parent v = (evs, none) ∧ evs.map Event.value = preorder v := by
  intro N
  induction N using Nat.strong_induction_on with
  | _ N IH =>
  intro v parent hN hwf
  cases v with
  | scalar ty k =>
    have hc : isContainerKind k = false := by
      rw [wf] at hwf
      simpa using hwf
    refine ⟨[Event.call "ForAssignAny" (callArgs parent).1 (callArgs parent).2.1
      (callArgs parent).2.2 (Val.scalar ty k)], ?_, ?_⟩
    · rw [_traverse.eq_def, call_univ_scalar parent ty k hc]
    · rw [preorder]
      simp [Event.value]
  | ptr ty oe =>
    cases oe with
    | none =>
      refine ⟨[Event.start "ForContainerPtr" (containerArgs parent).1 (containerArgs parent).2.1
        0 (containerArgs parent).2.2 (Val.ptr ty none)], ?_, ?_⟩
      · rw [_traverse.eq_def, call_univ_ptr_none parent ty]
        simp only [travChildren_ptr_none]
        simp [confContainerEnd, univReg]
      · rw [preorder]
        simp [Event.value]
    | some e =>
      rw [wf] at hwf
      have hlt : sizeOf e < sizeOf (Val.ptr ty (some e)) := by
        simp
        omega
      obtain ⟨cevs, hc, mc⟩ := IH (sizeOf e) (by omega) e
        (some { (⟨nextDepth parent, 1, -1, [], "ForContainerPtr", okCont⟩ : Frame) with offset := 0 })
        le_rfl hwf
      refine ⟨Event.start "ForContainerPtr" (containerArgs parent).1 (containerArgs parent).2.1
        1 (containerArgs parent).2.2 (Val.ptr ty (some e)) :: cevs, ?_, ?_⟩
      · rw [_traverse.eq_def, call_univ_ptr_some parent ty e]
        simp only [travChildren_ptr]
        rw [hc]
        simp [confContainerEnd, univReg]
      · rw [preorder]
        simp [Event.value, mc]
  | arr ty es =>
    rw [wf] at hwf
    have hIHe : ∀ e ∈ es, ∀ parent2, wf e = true →
        ∃ evs, _traverse univReg parent2 e = (evs, none) ∧ evs.map Event.value = preorder e := by
      intro e he parent2 hwe
      have h1 := List.sizeOf_lt_of_mem he
      have hlt : sizeOf e < sizeOf (Val.arr ty es) := by
        simp
        omega
      exact IH (sizeOf e) (by omega) e parent2 le_rfl hwe
    obtain ⟨cevs, hc, mc⟩ := childSeq_univ es
      ⟨nextDepth parent, es.length, -1, [], "ForContainerArray", okCont⟩ 0 hIHe hwf
    refine ⟨Event.start "ForContainerArray" (containerArgs parent).1 (containerArgs parent).2.1
      es.length (containerArgs parent).2.2 (Val.arr ty es) :: cevs, ?_, ?_⟩
    · rw [_traverse.eq_def, call_univ_arr parent ty es]
      simp only [travChildren_arr]
      rw [hc]
      simp [confContainerEnd, univReg]
    · rw [preorder]
      simp [Event.value, mc]
  | slice ty oes =>
    cases oes with
    | none =>
      refine ⟨[Event.start "ForContainerSlice" (containerArgs parent).1 (containerArgs parent).2.1
        0 (containerArgs parent).2.2 (Val.slice ty none)], ?_, ?_⟩
      · rw [_traverse.eq_def, call_univ_slice_none parent ty]
        simp only [_travChildren]
        simp [confContainerEnd, univReg]
      · rw [preorder]
        simp [Event.value]
    | some es =>
      rw [wf] at hwf
      have hIHe : ∀ e ∈ es, ∀ parent2, wf e = true →
          ∃ evs, _traverse univReg parent2 e = (evs, none) ∧ evs.map Event.value = preorder e := by
        intro e he parent2 hwe
        have h1 := List.sizeOf_lt_of_mem he
        have hlt : sizeOf e < sizeOf (Val.slice ty (some es)) := by
          simp
          omega
        exact IH (sizeOf e) (by omega) e parent2 le_rfl hwe
      obtain ⟨cevs, hc, mc⟩ := childSeq_univ es
        ⟨nextDepth parent, es.length, -1, [], "ForContainerSlice", okCont⟩ 0 hIHe hwf
      refine ⟨Event.start "ForContainerSlice" (containerArgs parent).1 (containerArgs parent).2.1
        es.length (containerArgs parent).2.2 (Val.slice ty (some es)) :: cevs, ?_, ?_⟩
      · rw [_traverse.eq_def, call_univ_slice_some parent ty es]
        simp only [travChildren_slice]
        rw [hc]
        simp [confContainerEnd, univReg]
      · rw [preorder]
        simp [Event.value, mc]
  | mp ty ops =>
    cases ops with
    | none =>
      refine ⟨[Event.start "ForContainerMap" (containerArgs parent).1 (containerArgs parent).2.1
        0 (containerArgs parent).2.2 (Val.mp ty none)], ?_, ?_⟩
      · rw [_traverse.eq_def, call_univ_mp_none parent ty]
        simp only [_travChildren]
        simp [confContainerEnd, univReg]
      · rw [preorder]
        simp [Event.value]
    | some ps =>
      rw [wf] at hwf
      have hIHp : ∀ p ∈ ps, ∀ parent2,
          (wf p.1 = true → ∃ evs, _traverse univReg parent2 p.1 = (evs, none) ∧
            evs.map Event.value = preorder p.1) ∧
          (wf p.2 = true → ∃ evs, _traverse univReg parent2 p.2 = (evs, none) ∧
            evs.map Event.value = preorder p.2) := by
        intro p hp parent2
        have h1 := List.sizeOf_lt_of_mem hp
        have hlt1 : sizeOf p.1 < sizeOf (Val.mp ty (some ps)) := by
          obtain ⟨a, b⟩ := p
          simp at h1 ⊢
          omega
        have hlt2 : sizeOf p.2 < sizeOf (Val.mp ty (some ps)) := by
          obtain ⟨a, b⟩ := p
          simp at h1 ⊢
          omega
        exact ⟨fun hw => IH (sizeOf p.1) (by omega) p.1 parent2 le_rfl hw,
               fun hw => IH (sizeOf p.2) (by omega) p.2 parent2 le_rfl hw⟩
      obtain ⟨cevs, hc, mc⟩ := childMap_univ ps
        ⟨nextDepth parent, 2 * ps.length, -1, [], "ForContainerMap", okCont⟩ 0 hIHp hwf
      refine ⟨Event.start "ForContainerMap" (containerArgs parent).1 (containerArgs parent).2.1
        (2 * ps.length) (containerArgs parent).2.2 (Val.mp ty (some ps)) :: cevs, ?_, ?_⟩
      · rw [_traverse.eq_def, call_univ_mp_some parent ty ps]
        simp only [travChildren_mp univReg
          ⟨nextDepth parent, 2 * ps.length, -1, [], "ForContainerMap", okCont⟩ ty ps rfl]
        rw [hc]
        simp [confContainerEnd, univReg]
      · rw [preorder]
        simp [Event.value, mc]
  | strct ty fs =>
    rw [wf] at hwf
    have hIHf : ∀ f ∈ fs, ∀ parent2, wf f.2.2 = true →
        ∃ evs, _traverse univReg parent2 f.2.2 = (evs, none) ∧
          evs.map Event.value = preorder f.2.2 := by
      intro f hf parent2 hwe
      have h1 := List.sizeOf_lt_of_mem hf
      have hlt : sizeOf f.2.2 < sizeOf (Val.strct ty fs) := by
        obtain ⟨a, b, c⟩ := f
        simp at h1 ⊢
        omega
      exact IH (sizeOf f.2.2) (by omega) f.2.2 parent2 le_rfl hwe
    obtain ⟨cevs, hc, mc⟩ := childStruct_univ (defaultProps 0 fs) fs
      ⟨nextDepth parent, (defaultProps 0 fs).length, -1, defaultProps 0 fs,
        "ForContainerStruct", okCont⟩ 0 0 (by simp) hIHf hwf
    refine ⟨Event.start "ForContainerStruct" (containerArgs parent).1 (containerArgs parent).2.1
      (defaultProps 0 fs).length (containerArgs parent).2.2 (Val.strct ty fs) :: cevs, ?_, ?_⟩
    · rw [_traverse.eq_def, call_univ_strct parent ty fs]
      simp only [travChildren_strct]
      rw [hc]
      simp [confContainerEnd, univReg]
    · rw [preorder]
      simp at mc
      simp [Event.value, mc]

/-- A concrete well-formed value used to witness the traversal claims: a
struct with an exported int, an unexported (skipped) int, and an exported
pointer to a map from a string to a slice of ints. -/
def c1wVal : Val :=
  Val.strct "Outer"
    [("A", true, Val.scalar "int" Kind.int),
     ("x", false, Val.scalar "int" Kind.int),
     ("P", true, Val.ptr "*M" (some (Val.mp "M"
        (some [(Val.scalar "key" Kind.string,
                Val.slice "[]int" (some [Val.scalar "elem" Kind.int]))]))))]

/-- C1 (amended): for every root representable as a finite value tree (no
pointer cycles), the traversal under a registry that matches and continues
into every member terminates (the embedding is a total function) with no
error, and the sequence of visited values is exactly the depth-first
pre-order enumeration of the reachable members — every reachable member is
visited exactly once, none twice, none forever.  The unamended claim also
covers values containing pointer cycles; the heap-model development below
refutes that part. -/
theorem C1_acyclic_traversal_visits_each_member_once (v : Val) (h : wf v = true) :
    ∃ evs, Traverse univReg (some v) = (evs, none) ∧ evs.map Event.value = preorder v := by
  have h2 := traverse_univ (sizeOf v) v none le_rfl h
  simpa [Traverse] using h2

/-- Witness for `C1_acyclic_traversal_visits_each_member_once` at `c1wVal`. -/
theorem C1_acyclic_traversal_visits_each_member_once_witness :
    wf c1wVal = true ∧
    ∃ evs, Traverse univReg (some c1wVal) = (evs, none) ∧ evs.map Event.value = preorder c1wVal :=
  ⟨by simp [c1wVal, wf, wfList, wfPairs, wfFields, isContainerKind],
   C1_acyclic_traversal_visits_each_member_once c1wVal
     (by simp [c1wVal, wf, wfList, wfPairs, wfFields, isContainerKind])⟩

end Dfpt

namespace Dfpt.HeapModel

/-- A Go value with pointer indirection through a store, which is what is
needed to represent cyclic Go values (`p = &p` and friends); the heap model
covers the scalar and pointer kinds, the two kinds a pointer cycle involves. -/
inductive HVal where
  | scalar (ty : String) (k : Kind)
  | hptr (ty : String) (addr : Option Nat)
deriving DecidableEq, Repr

/-- The `reflect.Kind` of a heap-model value. -/
def HVal.kind : HVal → Kind
  | .scalar _ k => k
  | .hptr _ _ => .ptr

/-- The concrete type name of a heap-model value. -/
def HVal.tyName : HVal → String
  | .scalar t _ => t
  | .hptr t _ => t

/-- Mirrors `val.Type().Kind() == reflect.Ptr && val.IsNil()`. -/
def HVal.isNilPtr : HVal → Bool
  | .hptr _ none => true
  | _ => false

/-- Non-container binding behaviour over heap-model values. -/
def HNormalFn : Type := Nat → Int → String → HVal → Option Err

/-- Container binding behaviour over heap-model values. -/
def HContainerFn : Type := Nat → Int → Nat → Bool → String → HVal → Bool × Option Err

/-- Descriptor-table items over heap-model values (kind-bound only; the two
modelled kinds need no type-bound tier for the cycle analysis). -/
inductive HItem where
  | kindItem (n : String) (k : Kind) (fn : HNormalFn)
  | contItem (n : String) (k : Kind) (fn : HContainerFn)

/-- Item matching: kind equality, as in `orderItem.match`. -/
def hItemMatches : HItem → HVal → Bool
  | .kindItem _ k _, v => v.kind == k
  | .contItem _ k _, v => v.kind == k

/-- `parentInfo` for the heap model (no struct member list needed). -/
structure HFrame where
  depth : Nat
  size : Nat
  offset : Int
  bindingName : String
  binding : HContainerFn

/-- The registry over heap-model values. -/
structure HTraveller where
  conf : Option Conf
  nilPtrMethod : Option HNormalFn
  typeOrder : List HItem

/-- Handler invocations over heap-model values. -/
inductive HEvent where
  | call (method : String) (depth : Nat) (index : Int) (name : String) (v : HVal)
  | start (method : String) (depth : Nat) (index : Int) (size : Nat) (name : String) (v : HVal)
  | endc (method : String) (depth : Nat) (index : Int) (size : Nat) (name : String) (v : HVal)
deriving DecidableEq, Repr

/-- `(depth, indexInParent, name)` arguments, as in `callIns` /
`_containerIns` restricted to non-struct parents. -/
def hArgs : Option HFrame → Nat × Int × String
  | none => (0, -1, "")
  | some p => (p.depth, p.offset, "")

/-- `parentInfo.nextDepth`. -/
def hNextDepth : Option HFrame → Nat
  | none => 1
  | some p => p.depth + 1

/-- Container size of a heap-model value: 1 for a non-nil pointer, 0
otherwise, as in `_call`. -/
def hSize : HVal → Nat
  | .hptr _ (some _) => 1
  | _ => 0

/-- `_call` results for the heap model. -/
inductive HCallRes where
  | stop (err : Option Err)
  | goin (fr : HFrame)
  | reenter

/-- `Traveller._call` over heap-model values, mirroring `_call`. -/
def _callH (t : HTraveller) (parent : Option HFrame) (v : HVal) : List HEvent × HCallRes :=
  match t.nilPtrMethod, v.isNilPtr with
  | some f, true =>
    let a := hArgs parent
    ([HEvent.call "ForNilPtr" a.1 a.2.1 a.2.2 v], .stop (f a.1 a.2.1 a.2.2 v))
  | _, _ =>
    match t.typeOrder.find? (fun it => hItemMatches it v) with
    | some (.kindItem n _ f) =>
      let a := hArgs parent
      ([HEvent.call n a.1 a.2.1 a.2.2 v], .stop (f a.1 a.2.1 a.2.2 v))
    | some (.contItem n _ f) =>
      let sz := hSize v
      let fr : HFrame := ⟨hNextDepth parent, sz, -1, n, f⟩
      let a := hArgs parent
      let r := f a.1 a.2.1 sz true a.2.2 v
      ([HEvent.start n a.1 a.2.1 sz a.2.2 v],
        match r.2 with
        | some e => .stop (some e)
        | none => if r.1 then .goin fr else .stop none)
    | none =>
      if confPtrAutoGoIn t.conf && v.kind == Kind.ptr then
        if v.isNilPtr then ([], .stop none) else ([], .reenter)
      else if confIgnoreMissed t.conf then ([], .stop none)
      else ([], .stop (some (.missingBinding v.tyName v.kind)))

/-- `Traveller._traverse` over heap-model values, fuelled: `none` means the
fuel ran out, i.e. the walk performed more nested steps than the fuel allows.
A pointer's referent is fetched from the heap, which is exactly where a cycle
re-enters the same value. -/
def _traverseH (heap : List HVal) (t : HTraveller) :
    Nat → Option HFrame → HVal → Option (List HEvent × Option Err)
  | 0, _, _ => none
  | fuel + 1, parent, v =>
    match _callH t parent v with
    | (evs, .stop e) => some (evs, e)
    | (evs, .reenter) =>
      match v with
      | .hptr _ (some a) =>
        match heap.get? a with
        | some w => (_traverseH heap t fuel parent w).map (fun c => (evs ++ c.1, c.2))
        | none => some (evs, some .invalidValue)
      | _ => some (evs, some (.internalPanic "reenter need a valid value"))
    | (evs, .goin fr) =>
      let cres : Option (List HEvent × Option Err) :=
        match v with
        | .hptr _ (some a) =>
          if fr.size > 0 then
            match heap.get? a with
            | some w => _traverseH heap t fuel (some { fr with offset := 0 }) w
            | none => some ([], some .invalidValue)
          else some ([], none)
        | .hptr _ none =>
          if fr.size > 0 then some ([], some .invalidValue) else some ([], none)
        | .scalar _ _ => some ([], some (.internalPanic "unknown status"))
      match cres with
      | none => none
      | some (cevs, some e) => some (evs ++ cevs, some e)
      | some (cevs, none) =>
        if confContainerEnd t.conf then
          let a := hArgs parent
          let e2 := (fr.binding a.1 a.2.1 fr.size false a.2.2 v).2
          some (evs ++ cevs ++ [HEvent.endc fr.bindingName a.1 a.2.1 fr.size a.2.2 v],
            match e2 with
            | some er => some (.containerEndFailed er)
            | none => none)
        else some (evs ++ cevs, none)

/-- Termination of a heap-model walk: some fuel makes it return a result. -/
def TerminatesH (heap : List HVal) (t : HTraveller) (root : HVal) : Prop :=
  ∃ fuel out, _traverseH heap t fuel none root = some out

/-- A registry with a container-pointer binding that always continues. -/
def cycReg : HTraveller :=
  { conf := none
    nilPtrMethod := none
    typeOrder := [HItem.contItem "ForContainerPtr" Kind.ptr (fun _ _ _ _ _ _ => (true, none))] }

/-- A one-cell heap whose cell is a pointer to itself: the value `p` with
`p = &p` (Go: `type P *P; var p P; p = (P)(&p)`). -/
def cycHeap : List HVal := [HVal.hptr "CycP" (some 0)]

/-- The root value of the cyclic heap. -/
def cycRoot : HVal := HVal.hptr "CycP" (some 0)

theorem traverseH_cyc_none : ∀ (fuel : Nat) (parent : Option HFrame),
    _traverseH cycHeap cycReg fuel parent cycRoot = none := by
  intro fuel
  induction fuel with
  | zero => intro parent; rfl
  | succ n ih =>
    intro parent
    have ih2 : ∀ parent2 : Option HFrame,
        _traverseH [HVal.hptr "CycP" (some 0)]
          { conf := none, nilPtrMethod := none,
            typeOrder := [HItem.contItem "ForContainerPtr" Kind.ptr
              (fun _ _ _ _ _ _ => (true, none))] }
          n parent2 (HVal.hptr "CycP" (some 0)) = none := by
      intro parent2
      have h3 := ih parent2
      simpa [cycHeap, cycReg, cycRoot] using h3
    rw [_traverseH]
    simp [cycRoot, _callH, cycReg, hItemMatches, HVal.kind, HVal.isNilPtr, List.find?,
      hSize, cycHeap, ih2, confContainerEnd]

/-- C1 counterexample: with a fixed registry binding pointers to a container
rule that continues, the cyclic root value `p = &p` makes `Traverse` loop
forever — no fuel bound makes the walk return, so the traversal does not
terminate and the single reachable member is revisited without end, refuting
the claim's coverage of values containing pointer/reference cycles. -/
theorem C1_cycle_counterexample : ¬ TerminatesH cycHeap cycReg cycRoot := by
  rintro ⟨fuel, out, h⟩
  rw [traverseH_cyc_none fuel none] at h
  cases h

end Dfpt.HeapModel

namespace Dfpt

/-- C10: calling `Traverse` with a nil/absent root (an invalid reflection
value) returns success immediately — no handler invocation (empty trace) and
no error, for every registry and hence regardless of the missing-binding
configuration. -/
theorem C10_nil_root_succeeds (t : Traveller) : Traverse t none = ([], none) := rfl

/-- C4: with a nil-pointer capability registered, a nil-valued pointer is
intercepted before the ordered descriptor table is consulted at all — the
result is the same for every `items` table, in particular one containing a
container-pointer rule — the only handler invocation is the nil-pointer
call, and the branch stops immediately after it (no further events). -/
theorem C4_nilptr_intercepts (conf : Option Conf) (items : List Item) (f : NormalFn)
    (parent : Option Frame) (ty : String) :
    _traverse ⟨conf, some f, items⟩ parent (Val.ptr ty none) =
      ([Event.call "ForNilPtr" (callArgs parent).1 (callArgs parent).2.1 (callArgs parent).2.2
         (Val.ptr ty none)],
       f (callArgs parent).1 (callArgs parent).2.1 (callArgs parent).2.2 (Val.ptr ty none)) := by
  rw [_traverse.eq_def]
  simp [_call, Val.isNilPtr]

def ptrChain : Nat → Val → Val
  | 0, v => v
  | n + 1, v => Val.ptr "P" (some (ptrChain n v))

def autoReg : Traveller :=
  { conf := some { ptrAutoGoIn := true }
    nilPtrMethod := none
    typeOrder := [Item.kindItem "ForKindInt" Kind.int okNormal] }

/-- C5: with `PtrAutoGoIn` enabled, a chain of `n` unbound non-nil pointers
ending in a bound int value resolves through the dereference-and-retry loop
of `_call` / `_traverse` (the `reenter` signal, which substitutes the pointee
and repeats resolution with the same parent frame) and yields exactly one
handler invocation, for the final bound value; a chain ending in an unbound
nil pointer is skipped silently: no handler invocation and no error.  The
claim's call-stack aspect (loop rather than stack growth) is a machine-level
property with no observable counterpart in the embedding. -/
theorem C5_auto_deref (n : Nat) (s ty : String) :
    (_traverse autoReg none (ptrChain n (Val.scalar s Kind.int)) =
      ([Event.call "ForKindInt" 0 (-1) "" (Val.scalar s Kind.int)], none)) ∧
    (_traverse autoReg none (ptrChain n (Val.ptr ty none)) = ([], none)) := by
  induction n with
  | zero =>
    constructor
    · rw [ptrChain, _traverse.eq_def]
      simp [_call, autoReg, Val.isNilPtr, itemMatches, Val.kind, List.find?, beqKind_eq_decide,
        okNormal, callArgs]
    · rw [ptrChain, _traverse.eq_def]
      simp [_call, autoReg, Val.isNilPtr, itemMatches, Val.kind, List.find?, beqKind_eq_decide,
        confPtrAutoGoIn]
  | succ m ih =>
    have ih1 := ih.1
    have ih2 := ih.2
    simp only [autoReg] at ih1 ih2
    constructor
    · rw [ptrChain, _traverse.eq_def]
      simp only [_call, autoReg, Val.isNilPtr, itemMatches, Val.kind, List.find?,
        beqKind_eq_decide, confPtrAutoGoIn]
      simp [ih1]
    · rw [ptrChain, _traverse.eq_def]
      simp only [_call, autoReg, Val.isNilPtr, itemMatches, Val.kind, List.find?,
        beqKind_eq_decide, confPtrAutoGoIn]
      simp [ih2]

/-- C6: for a value matched by no rule (and not intercepted by the
nil-pointer capability nor by pointer-auto-traversal), the walk fails with a
binding-is-missing error carrying the value's type name and kind when the
configuration does not tolerate missing bindings (no configuration or
`IgnoreMissedBinding = false`), and silently skips the value — no events, no
recursion, no error — when `IgnoreMissedBinding = true`. -/
theorem C6_missing_binding_policy (t : Traveller) (parent : Option Frame) (v : Val)
    (hm : ∀ it ∈ t.typeOrder, itemMatches it v = false)
    (hn : t.nilPtrMethod = none ∨ v.isNilPtr = false)
    (ha : v.kind = Kind.ptr → confPtrAutoGoIn t.conf = false) :
    (confIgnoreMissed t.conf = false →
      _traverse t parent v = ([], some (Err.missingBinding v.tyName v.kind))) ∧
    (confIgnoreMissed t.conf = true → _traverse t parent v = ([], none)) := by
  have hf : t.typeOrder.find? (fun it => itemMatches it v) = none := by
    rw [List.find?_eq_none]
    intro it hit
    simp [hm it hit]
  have hauto : (confPtrAutoGoIn t.conf && v.kind == Kind.ptr) = false := by
    by_cases hk : v.kind = Kind.ptr
    · simp [ha hk]
    · simp [beqKind_eq_decide, hk]
  have hcall : _call t parent v =
      (if confIgnoreMissed t.conf then ([], .stop none)
       else ([], .stop (some (Err.missingBinding v.tyName v.kind)))) := by
    rcases hnp : t.nilPtrMethod with _ | f
    · simp only [_call, hnp, hf, hauto]
      by_cases hi : confIgnoreMissed t.conf <;> simp [hi]
    · rcases hn with hn1 | hn2
      · rw [hnp] at hn1; cases hn1
      · simp only [_call, hnp, hn2, hf, hauto]
        by_cases hi : confIgnoreMissed t.conf <;> simp [hi]
  constructor
  · intro hi
    rw [_traverse.eq_def, hcall]
    simp [hi]
  · intro hi
    rw [_traverse.eq_def, hcall]
    simp [hi]

def c6regStrict : Traveller := ⟨none, none, [Item.kindItem "ForKindBool" Kind.bool okNormal]⟩

def c6regTolerant : Traveller :=
  ⟨some { ignoreMissedBinding := true }, none, [Item.kindItem "ForKindBool" Kind.bool okNormal]⟩

theorem C6_missing_binding_policy_witness :
    _traverse c6regStrict none (Val.scalar "int" Kind.int) =
      ([], some (Err.missingBinding "int" Kind.int)) ∧
    _traverse c6regTolerant none (Val.scalar "int" Kind.int) = ([], none) := by
  constructor
  · exact (C6_missing_binding_policy c6regStrict none (Val.scalar "int" Kind.int)
      (by simp [c6regStrict, itemMatches, Val.kind, beqKind_eq_decide])
      (Or.inl rfl) (by simp [Val.kind])).1 rfl
  · exact (C6_missing_binding_policy c6regTolerant none (Val.scalar "int" Kind.int)
      (by simp [c6regTolerant, itemMatches, Val.kind, beqKind_eq_decide])
      (Or.inl rfl) (by simp [Val.kind])).2 rfl

def mkIntScalar (s : String) : Val := Val.scalar s Kind.int

def mkPairs (ps : List (String × String)) : List (Val × Val) :=
  ps.map (fun ab => (mkIntScalar ab.1, mkIntScalar ab.2))

def mapReg : Traveller :=
  { conf := none
    nilPtrMethod := none
    typeOrder := [Item.contItem "ForContainerMap" Kind.map okCont,
                  Item.kindItem "ForKindInt" Kind.int okNormal] }

def pairEvents : Nat → List (String × String) → List Event
  | _, [] => []
  | i, ab :: rest =>
    Event.call "ForKindInt" 1 ((2 * i : Nat) : Int) "" (mkIntScalar ab.1) ::
    Event.call "ForKindInt" 1 (((2 * i : Nat) : Int) + 1) "" (mkIntScalar ab.2) ::
    pairEvents (i + 1) rest

theorem call_mapReg_int (parent : Option Frame) (s : String) :
    _call mapReg parent (mkIntScalar s) =
      ([Event.call "ForKindInt" (callArgs parent).1 (callArgs parent).2.1 (callArgs parent).2.2
        (mkIntScalar s)], .stop none) := by
  simp [_call, mapReg, mkIntScalar, itemMatches, Val.isNilPtr, Val.kind, List.find?,
    beqKind_eq_decide, okNormal]

theorem childMap_mapReg (ps : List (String × String)) : ∀ (fr : Frame) (i : Nat),
    fr.structFields = [] → fr.depth = 1 →
    _childMap mapReg fr i (mkPairs ps) = (pairEvents i ps, none) := by
  induction ps with
  | nil =>
    intro fr i _ _
    simp [mkPairs, pairEvents, _childMap]
  | cons ab rest ih =>
    intro fr i hsf hd
    have hkey : _traverse mapReg (some { fr with offset := (2 * i : Int) }) (mkIntScalar ab.1) =
        ([Event.call "ForKindInt" 1 ((2 * i : Nat) : Int) "" (mkIntScalar ab.1)], none) := by
      rw [_traverse.eq_def, call_mapReg_int]
      simp [callArgs, hsf, hd]
    have hval : _traverse mapReg (some { fr with offset := (2 * i : Int) + 1 }) (mkIntScalar ab.2) =
        ([Event.call "ForKindInt" 1 (((2 * i : Nat) : Int) + 1) "" (mkIntScalar ab.2)], none) := by
      rw [_traverse.eq_def, call_mapReg_int]
      simp [callArgs, hsf, hd]
    rw [mkPairs] at ih ⊢
    simp only [List.map_cons]
    rw [pairEvents, _childMap]
    simp [hkey, hval, ih fr (i + 1) hsf hd]

theorem pairEvents_length : ∀ (l : List (String × String)) (i : Nat),
    (pairEvents i l).length = 2 * l.length := by
  intro l
  induction l with
  | nil =>
    intro i
    rw [pairEvents]
    rfl
  | cons a r ih =>
    intro i
    rw [pairEvents]
    simp [ih]
    omega

/-- C3: traversing a mapping of `N` key/value pairs that matches a container
rule whose start-handler continues produces the start call with size `2 N`
followed by exactly `2 N` child visits: for pair `i` the key is visited at
even offset `2 i` and its value immediately after at odd offset `2 i + 1`
(`pairEvents` makes the alternation explicit; its length is `2 N`). -/
theorem C3_mapping_pairing (ty : String) (ps : List (String × String)) :
    _traverse mapReg none (Val.mp ty (some (mkPairs ps))) =
      (Event.start "ForContainerMap" 0 (-1) (2 * ps.length) "" (Val.mp ty (some (mkPairs ps))) ::
        pairEvents 0 ps, none) ∧
    (pairEvents 0 ps).length = 2 * ps.length := by
  constructor
  · have hcall : _call mapReg none (Val.mp ty (some (mkPairs ps))) =
        ([Event.start "ForContainerMap" 0 (-1) (2 * ps.length) "" (Val.mp ty (some (mkPairs ps)))],
         .goin ⟨1, 2 * ps.length, -1, [], "ForContainerMap", okCont⟩) := by
      simp [_call, mapReg, itemMatches, Val.isNilPtr, Val.kind, List.find?, beqKind_eq_decide,
        okCont, containerSizeFields, nextDepth, containerArgs, mkPairs]
    rw [_traverse.eq_def, hcall]
    have hch := travChildren_mp mapReg ⟨1, 2 * ps.length, -1, [], "ForContainerMap", okCont⟩
      ty (mkPairs ps) (by simp [mkPairs])
    simp only [hch]
    rw [childMap_mapReg ps ⟨1, 2 * ps.length, -1, [], "ForContainerMap", okCont⟩ 0 rfl rfl]
    simp [confContainerEnd, mapReg]
  · exact pairEvents_length ps 0

end Dfpt

namespace Dfpt

theorem call_no_end (t : Traveller) (parent : Option Frame) (v : Val) :
    ∀ ev ∈ (_call t parent v).1, ev.isEnd = false := by
  simp only [_call]
  split
  · simp [Event.isEnd]
  · split
    · simp [Event.isEnd]
    · simp [Event.isEnd]
    · simp [Event.isEnd]
    · split
      · split <;> simp [Event.isEnd]
      · split <;> simp [Event.isEnd]

theorem call_goin_inv (t : Traveller) (parent : Option Frame) (v : Val)
    (evs : List Event) (fr : Frame) (h : _call t parent v = (evs, CallRes.goin fr)) :
    evs = [Event.start fr.bindingName (containerArgs parent).1 (containerArgs parent).2.1
      fr.size (containerArgs parent).2.2 v] := by
  simp only [_call] at h
  split at h
  · simp at h
  · split at h
    · simp at h
    · simp at h
    · rename_i n tm f
      split at h
      · simp at h
      · split at h
        · rw [Prod.mk.injEq] at h
          obtain ⟨h1, h2⟩ := h
          cases h2
          rw [← h1]
        · simp at h
    · split at h
      · split at h <;> simp at h
      · split at h <;> simp at h
theorem childSeq_no_end (t : Traveller) : ∀ (es : List Val) (fr : Frame) (i : Nat),
    (∀ e ∈ es, ∀ parent, ∀ ev ∈ (_traverse t parent e).1, ev.isEnd = false) →
    ∀ ev ∈ (_childSeq t fr i es).1, ev.isEnd = false := by
  intro es
  induction es with
  | nil =>
    intro fr i _
    rw [_childSeq]
    simp
  | cons e rest ih =>
    intro fr i hIH
    rw [_childSeq]
    rcases hc : _traverse t (some { fr with offset := (i : Int) }) e with ⟨cevs, cerr⟩
    have h1 : ∀ ev ∈ cevs, ev.isEnd = false := by
      intro ev hev
      exact hIH e (by simp) _ ev (by rw [hc]; exact hev)
    cases cerr with
    | some er => simpa [hc] using h1
    | none =>
      simp only [hc]
      intro ev hev
      simp at hev
      rcases hev with hev | hev
      · exact h1 ev hev
      · exact ih fr (i + 1) (fun x hx => hIH x (by simp [hx])) ev hev

theorem childMap_no_end (t : Traveller) : ∀ (ps : List (Val × Val)) (fr : Frame) (i : Nat),
    (∀ p ∈ ps, ∀ parent,
      (∀ ev ∈ (_traverse t parent p.1).1, ev.isEnd = false) ∧
      (∀ ev ∈ (_traverse t parent p.2).1, ev.isEnd = false)) →
    ∀ ev ∈ (_childMap t fr i ps).1, ev.isEnd = false := by
  intro ps
  induction ps with
  | nil =>
    intro fr i _
    rw [_childMap]
    simp
  | cons p rest ih =>
    intro fr i hIH
    rw [_childMap]
    rcases hc1 : _traverse t (some { fr with offset := (2 * i : Int) }) p.1 with ⟨evs1, e1⟩
    have h1 : ∀ ev ∈ evs1, ev.isEnd = false := by
      intro ev hev
      exact ((hIH p (by simp) _).1) ev (by rw [hc1]; exact hev)
    cases e1 with
    | some er => simpa [hc1] using h1
    | none =>
      rcases hc2 : _traverse t (some { fr with offset := (2 * i + 1 : Int) }) p.2 with ⟨evs2, e2⟩
      have h2 : ∀ ev ∈ evs2, ev.isEnd = false := by
        intro ev hev
        exact ((hIH p (by simp) _).2) ev (by rw [hc2]; exact hev)
      cases e2 with
      | some er =>
        simp only [hc1, hc2]
        intro ev hev
        simp at hev
        rcases hev with hev | hev
        · exact h1 ev hev
        · exact h2 ev hev
      | none =>
        simp only [hc1, hc2]
        intro ev hev
        simp at hev
        rcases hev with hev | hev | hev
        · exact h1 ev hev
        · exact h2 ev hev
        · exact ih fr (i + 1) (fun x hx => hIH x (by simp [hx])) ev hev

theorem childStruct_no_end (t : Traveller) : ∀ (props : List Property)
    (fs : List (String × Bool × Val)) (fr : Frame) (i : Nat),
    (∀ f ∈ fs, ∀ parent, ∀ ev ∈ (_traverse t parent f.2.2).1, ev.isEnd = false) →
    ∀ ev ∈ (_childStruct t fr i props fs).1, ev.isEnd = false := by
  intro props
  induction props with
  | nil =>
    intro fs fr i _
    rw [_childStruct]
    simp
  | cons p rest ih =>
    intro fs fr i hIH
    rw [_childStruct]
    by_cases hneg : p.Index < 0
    · simp only [hneg, if_true]
      exact ih fs fr (i + 1) hIH
    · simp only [hneg, if_false]
      split
      · simp
      · rename_i f hget
        rcases hc : _traverse t (some { fr with offset := (i : Int) }) f.2.2 with ⟨evs1, e1⟩
        have hmem : f ∈ fs := List.get?_mem hget
        have h1 : ∀ ev ∈ evs1, ev.isEnd = false := by
          intro ev hev
          exact hIH f hmem _ ev (by rw [hc]; exact hev)
        cases e1 with
        | some er => simpa [hc] using h1
        | none =>
          simp only [hc]
          intro ev hev
          simp at hev
          rcases hev with hev | hev
          · exact h1 ev hev
          · exact ih fs fr (i + 1) hIH ev hev

theorem travChildren_no_end (t : Traveller) (fr : Frame) (v : Val)
    (hIH : ∀ w, sizeOf w < sizeOf v → ∀ parent, ∀ ev ∈ (_traverse t parent w).1, ev.isEnd = false) :
    ∀ ev ∈ (_travChildren t fr v).1, ev.isEnd = false := by
  cases v with
  | scalar ty k =>
    rw [_travChildren]
    simp
  | ptr ty oe =>
    cases oe with
    | none =>
      rw [_travChildren]
      split <;> simp
    | some e =>
      rw [_travChildren]
      split
      · exact hIH e (by simp; omega) _
      · simp
  | arr ty es =>
    rw [travChildren_arr]
    refine childSeq_no_end t es fr 0 ?_
    intro e he parent
    refine hIH e ?_ parent
    have h1 := List.sizeOf_lt_of_mem he
    simp
    omega
  | slice ty oes =>
    cases oes with
    | none =>
      rw [_travChildren]
      simp
    | some es =>
      rw [travChildren_slice]
      refine childSeq_no_end t es fr 0 ?_
      intro e he parent
      refine hIH e ?_ parent
      have h1 := List.sizeOf_lt_of_mem he
      simp
      omega
  | mp ty ops =>
    cases ops with
    | none =>
      rw [_travChildren]
      split <;> simp
    | some ps =>
      rw [_travChildren]
      split
      · split
        · simp
        · refine childMap_no_end t ps fr 0 ?_
          intro p hp parent
          have h1 := List.sizeOf_lt_of_mem hp
          obtain ⟨a, b⟩ := p
          simp at h1
          constructor
          · refine hIH a ?_ parent
            simp
            omega
          · refine hIH b ?_ parent
            simp
            omega
      · simp
  | strct ty fs =>
    rw [travChildren_strct]
    refine childStruct_no_end t fr.structFields fs fr 0 ?_
    intro f hf parent
    refine hIH f.2.2 ?_ parent
    have h1 := List.sizeOf_lt_of_mem hf
    obtain ⟨a, b, c⟩ := f
    simp at h1 ⊢
    omega

theorem traverse_no_end (t : Traveller) (hc : confContainerEnd t.conf = false) :
    ∀ (N : Nat) (v : Val) (parent : Option Frame), sizeOf v ≤ N →
    ∀ ev ∈ (_traverse t parent v).1, ev.isEnd = false := by
  intro N
  induction N using Nat.strong_induction_on with
  | _ N IH =>
  intro v parent hN
  rw [_traverse.eq_def]
  rcases hcall : _call t parent v with ⟨evs, res⟩
  have hevs : ∀ ev ∈ evs, ev.isEnd = false := by
    intro ev hev
    exact call_no_end t parent v ev (by rw [hcall]; exact hev)
  cases res with
  | stop e => simpa using hevs
  | reenter =>
    cases v with
    | ptr ty oe =>
      cases oe with
      | some e =>
        simp only []
        exact IH (sizeOf e) (by simp at hN ⊢; omega) e parent (by omega)
      | none => simpa using hevs
    | scalar ty k => simpa using hevs
    | arr ty es => simpa using hevs
    | slice ty oes => simpa using hevs
    | mp ty ops => simpa using hevs
    | strct ty fs => simpa using hevs
  | goin fr =>
    have hch : ∀ ev ∈ (_travChildren t fr v).1, ev.isEnd = false := by
      refine travChildren_no_end t fr v ?_
      intro w hw parent2
      exact IH (sizeOf w) (by omega) w parent2 le_rfl
    rcases hchv : _travChildren t fr v with ⟨cevs, cerr⟩
    rw [hchv] at hch
    simp only [hchv, hc]
    cases cerr with
    | some er =>
      intro ev hev
      simp at hev
      rcases hev with hev | hev
      · exact hevs ev hev
      · exact hch ev hev
    | none =>
      intro ev hev
      simp at hev
      rcases hev with hev | hev
      · exact hevs ev hev
      · exact hch ev hev

/-- C2: for every container value entered during a walk (the matcher returned
a container rule whose start call, recorded in `evs`, said continue), the
start call is the single event before all children events; with bracketing
(`ContainerEnd`) enabled and the children completing without error, the end
call is invoked strictly after all children's events with the same size
`fr.size` as the start call, its `goin` return value ignored (the result
depends only on the error component `.2` of the end call) and its error
wrapped and checked; when the children abort, the end call is skipped and the
error propagates; with bracketing disabled no end event occurs anywhere in
the trace. -/
theorem C2_container_bracketing (t : Traveller) (parent : Option Frame) (v : Val)
    (evs : List Event) (fr : Frame)
    (hcall : _call t parent v = (evs, CallRes.goin fr)) :
    evs = [Event.start fr.bindingName (containerArgs parent).1 (containerArgs parent).2.1
      fr.size (containerArgs parent).2.2 v] ∧
    (∀ cevs, _travChildren t fr v = (cevs, none) →
      (confContainerEnd t.conf = true →
        _traverse t parent v =
          (evs ++ cevs ++ [Event.endc fr.bindingName (containerArgs parent).1
              (containerArgs parent).2.1 fr.size (containerArgs parent).2.2 v],
            match (fr.binding (containerArgs parent).1 (containerArgs parent).2.1 fr.size false
                (containerArgs parent).2.2 v).2 with
            | some er => some (Err.containerEndFailed er)
            | none => none)) ∧
      (confContainerEnd t.conf = false →
        _traverse t parent v = (evs ++ cevs, none))) ∧
    (∀ cevs er, _travChildren t fr v = (cevs, some er) →
      _traverse t parent v = (evs ++ cevs, some er)) ∧
    (confContainerEnd t.conf = false → ∀ ev ∈ (_traverse t parent v).1, ev.isEnd = false) := by
  refine ⟨call_goin_inv t parent v evs fr hcall, ?_, ?_, ?_⟩
  · intro cevs hch
    constructor
    · intro hcE
      rw [_traverse.eq_def, hcall]
      simp only [hch, hcE]
      simp
    · intro hcE
      rw [_traverse.eq_def, hcall]
      simp only [hch, hcE]
      simp
  · intro cevs er hch
    rw [_traverse.eq_def, hcall]
    simp only [hch]
  · intro hcE
    exact traverse_no_end t hcE (sizeOf v) v parent le_rfl

def c2reg : Traveller :=
  { conf := some { containerEnd := true }
    nilPtrMethod := none
    typeOrder := [Item.contItem "ForContainerArray" Kind.array okCont,
                  Item.kindItem "ForKindInt" Kind.int okNormal] }

def c2v : Val := Val.arr "A1" [Val.scalar "x" Kind.int]

def c2fr : Frame := ⟨1, 1, -1, [], "ForContainerArray", okCont⟩

/-- Witness for `C2_container_bracketing`: a one-element array with
bracketing enabled produces start, child, end — end last, same size 1. -/
theorem C2_container_bracketing_witness :
    _traverse c2reg none c2v =
      ([Event.start "ForContainerArray" 0 (-1) 1 "" c2v,
        Event.call "ForKindInt" 1 0 "" (Val.scalar "x" Kind.int),
        Event.endc "ForContainerArray" 0 (-1) 1 "" c2v], none) := by
  have hcall : _call c2reg none c2v = ([Event.start "ForContainerArray" 0 (-1) 1 "" c2v],
      CallRes.goin c2fr) := by
    simp [_call, c2reg, c2v, c2fr, itemMatches, Val.isNilPtr, Val.kind, List.find?,
      beqKind_eq_decide, okCont, containerSizeFields, nextDepth, containerArgs]
  have hch : _travChildren c2reg c2fr c2v =
      ([Event.call "ForKindInt" 1 0 "" (Val.scalar "x" Kind.int)], none) := by
    rw [c2v, travChildren_arr]
    simp [_childSeq, _traverse, _call, c2reg, c2fr, itemMatches, Val.isNilPtr, Val.kind,
      List.find?, beqKind_eq_decide, okNormal, callArgs]
  have h := ((C2_container_bracketing c2reg none c2v _ c2fr hcall).2.1
    [Event.call "ForKindInt" 1 0 "" (Val.scalar "x" Kind.int)] hch).1 rfl
  simpa [c2fr, okCont, containerArgs] using h

end Dfpt

namespace Dfpt

/-- A Go type as the registry construction sees it: type name plus kind
(standing for `reflect.Type` identity and `Type.Kind()`). -/
structure PTy where
  name : String
  kind : Kind
deriving DecidableEq, Repr

/-- `*TravContext`. -/
def tyCtxPtr : PTy := ⟨"*TravContext", Kind.ptr⟩

/-- `int` (`_typeOfInt`). -/
def tyInt : PTy := ⟨"int", Kind.int⟩

/-- `string` (`_typeOfString`). -/
def tyString : PTy := ⟨"string", Kind.string⟩

/-- `bool` (`_typeOfBool`). -/
def tyBool : PTy := ⟨"bool", Kind.bool⟩

/-- `error` (`_typeOfError`). -/
def tyError : PTy := ⟨"error", Kind.iface⟩

/-- `interface {}` (`_typeOfInterface`). -/
def tyIface : PTy := ⟨"interface {}", Kind.iface⟩

/-- `ItemType` of the source. -/
inductive ItemType where
  | forImpl
  | forAssign
  | forKind
  | forContainer
  | forNilPtr
  | forIntX
  | forUintX
  | unknown
deriving DecidableEq, Repr

/-- `_kindMap` of the source — note the source map has no `"Int32"` entry,
and maps both `"Ptr"` and `"Pointer"` to the pointer kind. -/
def kindMap (s : String) : Option Kind :=
  if s = "Bool" then some .bool
  else if s = "Int" then some .int
  else if s = "Int8" then some .int8
  else if s = "Int16" then some .int16
  else if s = "Int64" then some .int64
  else if s = "Uint" then some .uint
  else if s = "Uint8" then some .uint8
  else if s = "Uint16" then some .uint16
  else if s = "Uint32" then some .uint32
  else if s = "Uint64" then some .uint64
  else if s = "Uintptr" then some .uintptr
  else if s = "Float32" then some .float32
  else if s = "Float64" then some .float64
  else if s = "Complex64" then some .complex64
  else if s = "Complex128" then some .complex128
  else if s = "Array" then some .array
  else if s = "Chan" then some .chan
  else if s = "Func" then some .func
  else if s = "Interface" then some .iface
  else if s = "Map" then some .map
  else if s = "Ptr" then some .ptr
  else if s = "Slice" then some .slice
  else if s = "String" then some .string
  else if s = "Struct" then some .struct
  else if s = "UnsafePointer" then some .unsafePointer
  else if s = "Pointer" then some .ptr
  else none

/-- `reflect.Kind.String()`, used in construction error messages. -/
def kindStr : Kind → String
  | .invalid => "invalid"
  | .bool => "bool"
  | .int => "int"
  | .int8 => "int8"
  | .int16 => "int16"
  | .int32 => "int32"
  | .int64 => "int64"
  | .uint => "uint"
  | .uint8 => "uint8"
  | .uint16 => "uint16"
  | .uint32 => "uint32"
  | .uint64 => "uint64"
  | .uintptr => "uintptr"
  | .float32 => "float32"
  | .float64 => "float64"
  | .complex64 => "complex64"
  | .complex128 => "complex128"
  | .array => "array"
  | .chan => "chan"
  | .func => "func"
  | .iface => "interface"
  | .map => "map"
  | .ptr => "ptr"
  | .slice => "slice"
  | .string => "string"
  | .struct => "struct"
  | .unsafePointer => "unsafe.Pointer"

/-- `ItemType.Which`: classify a method name.  Exact matches `ForNilPtr`,
`ForIntX`, `ForUintX` first (the source's switch cases), then the prefix
chain; `ForKindYYYY` requires a non-container kind from `_kindMap` and
`ForContainerYYYY` a container kind.  The length guard at the top only
ensures 7 characters, and the `ForAssign` test carries its own `len >= 9`
guard, but the container test slices `name[:12]` unguarded: a 7-to-11
character name that reaches it makes the Go code panic with a slice-bounds
error, which nothing in `NewTraveller` recovers — construction crashes and
returns nothing at all.  That runtime panic is `none`. -/
def whichName (name : String) : Option (ItemType × Kind × Bool) :=
  if name.length < 7 then some (.unknown, .invalid, false)
  else if name = "ForNilPtr" then some (.forNilPtr, .invalid, true)
  else if name = "ForIntX" then some (.forIntX, .invalid, true)
  else if name = "ForUintX" then some (.forUintX, .invalid, true)
  else if name.take 7 = "ForImpl" then some (.forImpl, .invalid, true)
  else if 9 ≤ name.length ∧ name.take 9 = "ForAssign" then some (.forAssign, .invalid, true)
  else if name.take 7 = "ForKind" then
    match kindMap (name.drop 7) with
    | none => some (.unknown, .invalid, false)
    | some k =>
      if isContainerKind k then some (.unknown, .invalid, false) else some (.forKind, k, true)
  else if name.length < 12 then none
  else if name.take 12 = "ForContainer" then
    match kindMap (name.drop 12) with
    | none => some (.unknown, .invalid, false)
    | some k =>
      if isContainerKind k then some (.forContainer, k, true) else some (.unknown, .invalid, false)
  else some (.unknown, .invalid, false)

/-- `ItemType.ParamLength`. -/
def paramLength : ItemType → Nat
  | .forImpl => 5
  | .forAssign => 5
  | .forKind => 5
  | .forNilPtr => 5
  | .forIntX => 5
  | .forUintX => 5
  | .forContainer => 7
  | .unknown => 0

/-- A method signature as `reflect` reports it: `ins` with the receiver at
position 0, and `outs`. -/
structure GoMethodSig where
  ins : List PTy
  outs : List PTy
deriving DecidableEq, Repr

/-- One method of the adapter's method set, in declaration order. -/
structure AMethod where
  name : String
  sig : GoMethodSig
deriving DecidableEq, Repr

/-- `ftype.In(i)`. -/
def pin (sig : GoMethodSig) (i : Nat) : PTy := sig.ins.getD i ⟨"", Kind.invalid⟩

/-- `ftype.Out(i)`. -/
def pout (sig : GoMethodSig) (i : Nat) : PTy := sig.outs.getD i ⟨"", Kind.invalid⟩

/-- `ItemType.IsValidWithReceiver`: the signature shape required by each
classification (receiver at `In(0)`; context, depth, index, name for the
non-container shapes with a single `error` return, `interface{}` property for
`ForNilPtr`; context, depth, index, size, startOrEnd, name for containers
with `(bool, error)` returns). -/
def isValidWithReceiver (i : ItemType) (sig : GoMethodSig) : Bool :=
  if sig.ins.length ≠ paramLength i + 1 then false
  else
    match i with
    | .forImpl | .forAssign | .forKind | .forNilPtr | .forIntX | .forUintX =>
      (pin sig 1 == tyCtxPtr) && (pin sig 2 == tyInt) && (pin sig 3 == tyInt) &&
      (pin sig 4 == tyString) &&
      (sig.outs.length == 1) && (pout sig 0 == tyError) &&
      (if i = .forNilPtr then pin sig 5 == tyIface else true)
    | .forContainer =>
      (pin sig 1 == tyCtxPtr) && (pin sig 2 == tyInt) && (pin sig 3 == tyInt) &&
      (pin sig 4 == tyInt) && (pin sig 5 == tyBool) && (pin sig 6 == tyString) &&
      (sig.outs.length == 2) && (pout sig 0 == tyBool) && (pout sig 1 == tyError)
    | .unknown => false

/-- `orderItem` as construction records it (`i` declaration index, `n` name,
`o` order, `t` bound type, `c` container flag, `k` bound kind). -/
structure COrderItem where
  i : Nat
  n : String
  o : Int
  t : Option PTy
  c : Bool
  k : Kind
deriving DecidableEq, Repr

/-- The construction result: the ordered item table plus the lookup keys of
`typeMethods` / `kindMethods` and whether a `ForNilPtr` binding was set. -/
structure CTraveller where
  typeOrder : List COrderItem
  typeKeys : List PTy
  kindKeys : List Kind
  nilPtr : Bool
deriving DecidableEq, Repr

/-- One iteration of `NewTraveller`'s method loop: classify, validate, then
record, erroring on a duplicate concrete type, duplicate kind, or duplicate
nil-pointer binding.  A classifier panic (`whichName` = `none`) propagates:
the loop body never runs and the whole construction crashes.  The `ForIntX` /
`ForUintX` classifications fall through the switch unrecorded, exactly as in
the source. -/
def buildStep (st : CTraveller) (idx : Nat) (m : AMethod) :
    Option (Except String CTraveller) :=
  match whichName m.name with
  | none => none
  | some w =>
    if w.2.2 = false then some (.ok st)
    else if isValidWithReceiver w.1 m.sig = false then some (.ok st)
    else some (match w.1 with
    | .forImpl | .forAssign =>
      let inType := pin m.sig (paramLength w.1)
      if inType ∈ st.typeKeys then
        .error ("duplicated binding function " ++ m.name ++ " found for Type:" ++ inType.name)
      else
        .ok { st with
          typeOrder := st.typeOrder ++ [⟨idx, m.name, 0, some inType, false, .invalid⟩],
          typeKeys := st.typeKeys ++ [inType] }
    | .forKind | .forContainer =>
      if w.2.1 ∈ st.kindKeys then
        .error ("duplicated binding function " ++ m.name ++ " found for Kind:" ++ kindStr w.2.1)
      else
        .ok { st with
          typeOrder := st.typeOrder ++
            [⟨idx, m.name, 0, none, w.1 = ItemType.forContainer, w.2.1⟩],
          kindKeys := st.kindKeys ++ [w.2.1] }
    | .forNilPtr =>
      if st.nilPtr then
        .error ("duplicated binding function " ++ m.name ++ " found for Nil Ptr")
      else .ok { st with nilPtr := true }
    | _ => .ok st)

/-- The method loop of `NewTraveller`; `none` is a classifier panic escaping
the loop. -/
def buildLoop : Nat → List AMethod → CTraveller → Option (Except String CTraveller)
  | _, [], st => some (.ok st)
  | idx, m :: rest, st =>
    match buildStep st idx m with
    | none => none
    | some (.error e) => some (.error e)
    | some (.ok st2) => buildLoop (idx + 1) rest st2

/-- `orderItems.Less` turned into a total `le` for the sort (keys `(o, i)`
are unique because declaration indices are unique, so any correct sort
produces the source's `sort.Sort` result). -/
def itemLe (a b : COrderItem) : Bool :=
  (a.o < b.o) || (a.o == b.o && a.i ≤ b.i)

/-- Sorted insertion for `sortItems`. -/
def insertItem (a : COrderItem) : List COrderItem → List COrderItem
  | [] => [a]
  | b :: l => if itemLe a b then a :: b :: l else b :: insertItem a l

/-- `sort.Sort(items)` on the `(o, i)` key. -/
def sortItems : List COrderItem → List COrderItem
  | [] => []
  | a :: l => insertItem a (sortItems l)

/-- The empty construction state. -/
def emptySt : CTraveller := ⟨[], [], [], false⟩

/-- `NewTraveller`: run the method loop over the adapter's method set in
declaration order; fail with the source's message when no item was recorded;
otherwise sort the item table.  An error returns no partial registry, and a
classifier panic (`none`) crashes construction without returning anything. -/
def NewTraveller (methods : List AMethod) : Option (Except String CTraveller) :=
  match buildLoop 0 methods emptySt with
  | none => none
  | some (.error e) => some (.error e)
  | some (.ok st) =>
    if st.typeOrder.length = 0 then some (.error "no available binding function found")
    else some (.ok { st with typeOrder := sortItems st.typeOrder })

/-- The concrete bound type of a method that construction accepts as
`ForImpl` / `ForAssign` (mirrors the guards of `buildStep`). -/
def acceptedType (m : AMethod) : Option PTy :=
  match whichName m.name with
  | none => none
  | some w =>
    if w.2.2 = false then none
    else if isValidWithReceiver w.1 m.sig = false then none
    else
      match w.1 with
      | .forImpl | .forAssign => some (pin m.sig (paramLength w.1))
      | _ => none

/-- The bound kind of a method that construction accepts as `ForKind` /
`ForContainer`. -/
def acceptedKind (m : AMethod) : Option Kind :=
  match whichName m.name with
  | none => none
  | some w =>
    if w.2.2 = false then none
    else if isValidWithReceiver w.1 m.sig = false then none
    else
      match w.1 with
      | .forKind | .forContainer => some w.2.1
      | _ => none

/-- Whether a method is an accepted nil-pointer binding. -/
def isNilPtrOp (m : AMethod) : Bool :=
  match whichName m.name with
  | none => false
  | some w =>
    if w.2.2 = false then false
    else if isValidWithReceiver w.1 m.sig = false then false
    else w.1 == ItemType.forNilPtr

/-- Whether a method is recorded into the ordered item table. -/
def recordedOp (m : AMethod) : Bool :=
  (acceptedType m).isSome || (acceptedKind m).isSome

theorem buildStep_ne_none (st : CTraveller) (idx : Nat) (m : AMethod)
    (h : (whichName m.name).isSome = true) : buildStep st idx m ≠ none := by
  simp only [buildStep]
  rcases hwn : whichName m.name with _ | w
  · rw [hwn] at h
    simp at h
  · simp only [hwn]
    split
    · simp
    · split <;> simp

theorem buildStep_dup_type (st : CTraveller) (idx : Nat) (m : AMethod) (ty : PTy)
    (h : acceptedType m = some ty) (hmem : ty ∈ st.typeKeys) :
    ∃ e, buildStep st idx m = some (.error e) := by
  simp only [acceptedType] at h
  simp only [buildStep]
  rcases hwn : whichName m.name with _ | w
  · simp [hwn] at h
  · simp only [hwn] at h ⊢
    by_cases h1 : w.2.2 = false
    · simp [h1] at h
    · simp only [h1, if_false] at h ⊢
      by_cases h2 : isValidWithReceiver w.1 m.sig = false
      · simp [h2] at h
      · simp only [h2, if_false] at h ⊢
        rcases hw : w.1 with _ | _ | _ | _ | _ | _ | _ | _ <;>
          simp [hw] at h ⊢ <;> rw [← h] at hmem <;> simp [hmem]

theorem buildStep_dup_kind (st : CTraveller) (idx : Nat) (m : AMethod) (k : Kind)
    (h : acceptedKind m = some k) (hmem : k ∈ st.kindKeys) :
    ∃ e, buildStep st idx m = some (.error e) := by
  simp only [acceptedKind] at h
  simp only [buildStep]
  rcases hwn : whichName m.name with _ | w
  · simp [hwn] at h
  · simp only [hwn] at h ⊢
    by_cases h1 : w.2.2 = false
    · simp [h1] at h
    · simp only [h1, if_false] at h ⊢
      by_cases h2 : isValidWithReceiver w.1 m.sig = false
      · simp [h2] at h
      · simp only [h2, if_false] at h ⊢
        rcases hw : w.1 with _ | _ | _ | _ | _ | _ | _ | _ <;>
          simp [hw] at h ⊢ <;> simp [h, hmem]

theorem buildStep_dup_nil (st : CTraveller) (idx : Nat) (m : AMethod)
    (h : isNilPtrOp m = true) (hn : st.nilPtr = true) :
    ∃ e, buildStep st idx m = some (.error e) := by
  simp only [isNilPtrOp] at h
  simp only [buildStep]
  rcases hwn : whichName m.name with _ | w
  · simp [hwn] at h
  · simp only [hwn] at h ⊢
    by_cases h1 : w.2.2 = false
    · simp [h1] at h
    · simp only [h1, if_false] at h ⊢
      by_cases h2 : isValidWithReceiver w.1 m.sig = false
      · simp [h2] at h
      · simp only [h2, if_false] at h ⊢
        rcases hw : w.1 with _ | _ | _ | _ | _ | _ | _ | _ <;>
          simp [hw] at h ⊢ <;> simp [hn]

theorem buildStep_ok_keys (st : CTraveller) (idx : Nat) (m : AMethod) (st2 : CTraveller)
    (h : buildStep st idx m = some (.ok st2)) :
    st2.typeKeys = st.typeKeys ++ (acceptedType m).toList ∧
    st2.kindKeys = st.kindKeys ++ (acceptedKind m).toList ∧
    st2.nilPtr = (st.nilPtr || isNilPtrOp m) ∧
    st2.typeOrder.length = st.typeOrder.length + (if recordedOp m then 1 else 0) := by
  simp only [buildStep] at h
  rcases hwn : whichName m.name with _ | w
  · simp [hwn] at h
  · simp only [hwn] at h
    by_cases h1 : w.2.2 = false
    · rw [if_pos h1, Option.some.injEq, Except.ok.injEq] at h
      subst h
      simp [acceptedType, acceptedKind, isNilPtrOp, recordedOp, hwn, h1]
    · rw [if_neg h1] at h
      by_cases h2 : isValidWithReceiver w.1 m.sig = false
      · rw [if_pos h2, Option.some.injEq, Except.ok.injEq] at h
        subst h
        simp [acceptedType, acceptedKind, isNilPtrOp, recordedOp, hwn, h1, h2]
      · rw [if_neg h2, Option.some.injEq] at h
        rcases hw : w.1 with _ | _ | _ | _ | _ | _ | _ | _
        ·
          rw [hw] at h2
          simp only [hw] at h
          split at h
          · cases h
          · rw [Except.ok.injEq] at h
            subst h
            simp [acceptedType, acceptedKind, isNilPtrOp, recordedOp, hwn, h1, h2, hw]
        ·
          rw [hw] at h2
          simp only [hw] at h
          split at h
          · cases h
          · rw [Except.ok.injEq] at h
            subst h
            simp [acceptedType, acceptedKind, isNilPtrOp, recordedOp, hwn, h1, h2, hw]
        ·
          rw [hw] at h2
          simp only [hw] at h
          split at h
          · cases h
          · rw [Except.ok.injEq] at h
            subst h
            simp [acceptedType, acceptedKind, isNilPtrOp, recordedOp, hwn, h1, h2, hw]
        ·
          rw [hw] at h2
          simp only [hw] at h
          split at h
          · cases h
          · rw [Except.ok.injEq] at h
            subst h
            simp [acceptedType, acceptedKind, isNilPtrOp, recordedOp, hwn, h1, h2, hw]
        ·
          rw [hw] at h2
          simp only [hw] at h
          split at h
          · cases h
          · rw [Except.ok.injEq] at h
            subst h
            simp [acceptedType, acceptedKind, isNilPtrOp, recordedOp, hwn, h1, h2, hw]
        ·
          rw [hw] at h2
          simp only [hw] at h
          rw [Except.ok.injEq] at h
          subst h
          simp [acceptedType, acceptedKind, isNilPtrOp, recordedOp, hwn, h1, h2, hw]
        ·
          rw [hw] at h2
          simp only [hw] at h
          rw [Except.ok.injEq] at h
          subst h
          simp [acceptedType, acceptedKind, isNilPtrOp, recordedOp, hwn, h1, h2, hw]
        ·
          rw [hw] at h2
          simp only [hw] at h
          rw [Except.ok.injEq] at h
          subst h
          simp [acceptedType, acceptedKind, isNilPtrOp, recordedOp, hwn, h1, h2, hw]

theorem buildStep_ok_type_fresh (st : CTraveller) (idx : Nat) (m : AMethod)
    (st2 : CTraveller) (ty : PTy) (hok : buildStep st idx m = some (.ok st2))
    (hat : acceptedType m = some ty) : ty ∉ st.typeKeys := by
  intro hmem
  obtain ⟨e, he⟩ := buildStep_dup_type st idx m ty hat hmem
  rw [hok] at he
  simp at he

theorem buildStep_ok_kind_fresh (st : CTraveller) (idx : Nat) (m : AMethod)
    (st2 : CTraveller) (k : Kind) (hok : buildStep st idx m = some (.ok st2))
    (hat : acceptedKind m = some k) : k ∉ st.kindKeys := by
  intro hmem
  obtain ⟨e, he⟩ := buildStep_dup_kind st idx m k hat hmem
  rw [hok] at he
  simp at he

theorem buildStep_ok_nil_fresh (st : CTraveller) (idx : Nat) (m : AMethod)
    (st2 : CTraveller) (hok : buildStep st idx m = some (.ok st2))
    (hat : isNilPtrOp m = true) : st.nilPtr = false := by
  by_cases hn : st.nilPtr = true
  · obtain ⟨e, he⟩ := buildStep_dup_nil st idx m hat hn
    rw [hok] at he
    simp at he
  · simpa using hn

theorem buildLoop_dup_type : ∀ (ms : List AMethod) (idx : Nat) (st : CTraveller) (ty : PTy),
    (∀ m ∈ ms, (whichName m.name).isSome = true) →
    2 ≤ (if ty ∈ st.typeKeys then 1 else 0) + ((ms.filterMap acceptedType).count ty) →
    ∃ e, buildLoop idx ms st = some (.error e) := by
  intro ms
  induction ms with
  | nil =>
    intro idx st ty _ h
    simp at h
    split at h <;> omega
  | cons m rest ih =>
    intro idx st ty hq h
    rw [buildLoop]
    rcases hstep : buildStep st idx m with _ | e | st2
    · exact absurd hstep (buildStep_ne_none st idx m (hq m (by simp)))
    · exact ⟨e, rfl⟩
    · obtain ⟨hkeys, _, _, _⟩ := buildStep_ok_keys st idx m st2 hstep
      refine ih (idx + 1) st2 ty (fun x hx => hq x (by simp [hx])) ?_
      rcases hat : acceptedType m with _ | ty2
      · rw [hat] at hkeys
        simp at hkeys
        rw [List.filterMap_cons, hat] at h
        rw [hkeys]
        exact h
      · rw [hat] at hkeys
        simp at hkeys
        rw [List.filterMap_cons, hat] at h
        rw [List.count_cons] at h
        by_cases hty : ty2 = ty
        · subst hty
          have hfresh : ty2 ∉ st.typeKeys := buildStep_ok_type_fresh st idx m st2 ty2 hstep hat
          have e1 : (if ty2 ∈ st.typeKeys then 1 else 0) = 0 := by simp [hfresh]
          have e2 : (if ty2 ∈ st2.typeKeys then 1 else 0) = 1 := by
            have hin2 : ty2 ∈ st2.typeKeys := by
              rw [hkeys]
              simp
            simp [hin2]
          rw [e1] at h
          rw [e2]
          simp only [beq_self_eq_true, if_true, Nat.zero_add] at h
          omega
        · have hiff : (ty ∈ st2.typeKeys) ↔ (ty ∈ st.typeKeys) := by
            rw [hkeys]
            simp
            intro hc
            exact absurd hc.symm hty
          have e3 : (if (ty2 == ty) = true then 1 else 0) = 0 := by simp [hty]
          rw [e3] at h
          have e4 : (if ty ∈ st2.typeKeys then 1 else 0) = (if ty ∈ st.typeKeys then 1 else 0) := by
            by_cases hmem : ty ∈ st.typeKeys
            · simp [hmem, hiff.mpr hmem]
            · have hm2 : ty ∉ st2.typeKeys := fun hc => hmem (hiff.mp hc)
              simp [hmem, hm2]
          rw [e4]
          omega

theorem buildLoop_dup_kind : ∀ (ms : List AMethod) (idx : Nat) (st : CTraveller) (k : Kind),
    (∀ m ∈ ms, (whichName m.name).isSome = true) →
    2 ≤ (if k ∈ st.kindKeys then 1 else 0) + ((ms.filterMap acceptedKind).count k) →
    ∃ e, buildLoop idx ms st = some (.error e) := by
  intro ms
  induction ms with
  | nil =>
    intro idx st k _ h
    simp at h
    split at h <;> omega
  | cons m rest ih =>
    intro idx st k hq h
    rw [buildLoop]
    rcases hstep : buildStep st idx m with _ | e | st2
    · exact absurd hstep (buildStep_ne_none st idx m (hq m (by simp)))
    · exact ⟨e, rfl⟩
    · obtain ⟨_, hkeys, _, _⟩ := buildStep_ok_keys st idx m st2 hstep
      refine ih (idx + 1) st2 k (fun x hx => hq x (by simp [hx])) ?_
      rcases hat : acceptedKind m with _ | k2
      · rw [hat] at hkeys
        simp at hkeys
        rw [List.filterMap_cons, hat] at h
        rw [hkeys]
        exact h
      · rw [hat] at hkeys
        simp at hkeys
        rw [List.filterMap_cons, hat] at h
        rw [List.count_cons] at h
        by_cases hk2 : k2 = k
        · subst hk2
          have hfresh : k2 ∉ st.kindKeys := buildStep_ok_kind_fresh st idx m st2 k2 hstep hat
          have e1 : (if k2 ∈ st.kindKeys then 1 else 0) = 0 := by simp [hfresh]
          have e2 : (if k2 ∈ st2.kindKeys then 1 else 0) = 1 := by
            have hin2 : k2 ∈ st2.kindKeys := by
              rw [hkeys]
              simp
            simp [hin2]
          rw [e1] at h
          rw [e2]
          simp only [beq_self_eq_true, if_true, Nat.zero_add] at h
          omega
        · have hiff : (k ∈ st2.kindKeys) ↔ (k ∈ st.kindKeys) := by
            rw [hkeys]
            simp
            intro hc
            exact absurd hc.symm hk2
          have e3 : (if (k2 == k) = true then 1 else 0) = 0 := by simp [hk2]
          rw [e3] at h
          have e4 : (if k ∈ st2.kindKeys then 1 else 0) = (if k ∈ st.kindKeys then 1 else 0) := by
            by_cases hmem : k ∈ st.kindKeys
            · simp [hmem, hiff.mpr hmem]
            · have hm2 : k ∉ st2.kindKeys := fun hc => hmem (hiff.mp hc)
              simp [hmem, hm2]
          rw [e4]
          omega

theorem buildLoop_dup_nil : ∀ (ms : List AMethod) (idx : Nat) (st : CTraveller),
    (∀ m ∈ ms, (whichName m.name).isSome = true) →
    2 ≤ (if st.nilPtr = true then 1 else 0) + (ms.filter isNilPtrOp).length →
    ∃ e, buildLoop idx ms st = some (.error e) := by
  intro ms
  induction ms with
  | nil =>
    intro idx st _ h
    simp at h
    split at h <;> omega
  | cons m rest ih =>
    intro idx st hq h
    rw [buildLoop]
    rcases hstep : buildStep st idx m with _ | e | st2
    · exact absurd hstep (buildStep_ne_none st idx m (hq m (by simp)))
    · exact ⟨e, rfl⟩
    · obtain ⟨_, _, hnil, _⟩ := buildStep_ok_keys st idx m st2 hstep
      refine ih (idx + 1) st2 (fun x hx => hq x (by simp [hx])) ?_
      rcases hm : isNilPtrOp m with _ | _
      · rw [hm] at hnil
        simp at hnil
        rw [List.filter_cons, hm] at h
        simp only [Bool.false_eq_true, if_false] at h
        rw [hnil]
        exact h
      · have hfresh : st.nilPtr = false := buildStep_ok_nil_fresh st idx m st2 hstep hm
        rw [hm] at hnil
        simp at hnil
        rw [List.filter_cons, hm] at h
        rw [hfresh] at h
        simp at h
        rw [hnil]
        simp
        omega

theorem buildStep_not_recorded (st : CTraveller) (idx : Nat) (m : AMethod)
    (hs : (whichName m.name).isSome = true) (h : recordedOp m = false) :
    (isNilPtrOp m = false → buildStep st idx m = some (.ok st)) ∧
    (isNilPtrOp m = true → st.nilPtr = false →
      buildStep st idx m = some (.ok { st with nilPtr := true })) := by
  simp only [buildStep, isNilPtrOp]
  rcases hwn : whichName m.name with _ | w
  · rw [hwn] at hs
    simp at hs
  · simp only [hwn]
    by_cases h1 : w.2.2 = false
    · simp [h1]
    · by_cases h2 : isValidWithReceiver w.1 m.sig = false
      · simp [h1, h2]
      · simp only [h1, h2, if_false]
        rcases hw : w.1 with _ | _ | _ | _ | _ | _ | _ | _
        · rw [hw] at h2
          simp [recordedOp, acceptedType, hwn, h1, h2, hw] at h
        · rw [hw] at h2
          simp [recordedOp, acceptedType, hwn, h1, h2, hw] at h
        · rw [hw] at h2
          simp [recordedOp, acceptedKind, hwn, h1, h2, hw] at h
        · rw [hw] at h2
          simp [recordedOp, acceptedKind, hwn, h1, h2, hw] at h
        · constructor
          · intro hni
            simp [hw] at hni
          · intro _ hnp
            simp [hw, hnp]
        · simp [hw]
        · simp [hw]
        · simp [hw]

theorem buildLoop_no_recorded : ∀ (ms : List AMethod) (idx : Nat) (st : CTraveller),
    (∀ m ∈ ms, (whichName m.name).isSome = true) →
    (∀ m ∈ ms, recordedOp m = false) →
    (if st.nilPtr = true then 1 else 0) + (ms.filter isNilPtrOp).length ≤ 1 →
    ∃ st2, buildLoop idx ms st = some (.ok st2) ∧ st2.typeOrder = st.typeOrder := by
  intro ms
  induction ms with
  | nil =>
    intro idx st _ _ _
    exact ⟨st, rfl, rfl⟩
  | cons m rest ih =>
    intro idx st hq hrec hbud
    rw [buildLoop]
    have hnr := buildStep_not_recorded st idx m (hq m (by simp)) (hrec m (by simp))
    rcases hm : isNilPtrOp m with _ | _
    · rw [hnr.1 hm]
      refine ih (idx + 1) st (fun x hx => hq x (by simp [hx]))
        (fun x hx => hrec x (by simp [hx])) ?_
      rw [List.filter_cons, hm] at hbud
      simpa using hbud
    · rw [List.filter_cons, hm] at hbud
      simp only [if_pos] at hbud
      have hnp : st.nilPtr = false := by
        rcases hx : st.nilPtr with _ | _
        · rfl
        · rw [hx] at hbud
          simp at hbud
      rw [hnr.2 hm hnp]
      refine ih (idx + 1) { st with nilPtr := true } (fun x hx => hq x (by simp [hx]))
        (fun x hx => hrec x (by simp [hx])) ?_
      rw [hnp] at hbud
      simp at hbud ⊢
      exact hbud

/-- C7: provided every exposed method name survives classification (in the
source, `ItemType.Which` slices `name[:12]` without a length guard, so a 7-to-11
character name matching no recognized exact name or prefix panics instead of
classifying — see the refutation below), registry construction fails —
returning an error and no registry at all — whenever the adapter's method set
holds two accepted operations bound to the same concrete type, or two bound
to the same kind, or two nil-pointer-bound operations; and when zero
operations are recorded into the ordered table it fails with exactly the
source's message, provided at most one nil-pointer operation is present (in
Go a method set cannot hold two methods of the same name `ForNilPtr`, so the
proviso is vacuous for real adapters; with two of them the failure is the
duplicate error instead). -/
theorem C7_construction_rejects_ambiguity (ms : List AMethod)
    (hq : ∀ m ∈ ms, (whichName m.name).isSome = true) :
    (∀ ty : PTy, 2 ≤ ((ms.filterMap acceptedType).count ty) →
      ∃ e, NewTraveller ms = some (.error e)) ∧
    (∀ k : Kind, 2 ≤ ((ms.filterMap acceptedKind).count k) →
      ∃ e, NewTraveller ms = some (.error e)) ∧
    (2 ≤ (ms.filter isNilPtrOp).length → ∃ e, NewTraveller ms = some (.error e)) ∧
    ((∀ m ∈ ms, recordedOp m = false) → (ms.filter isNilPtrOp).length ≤ 1 →
      NewTraveller ms = some (.error "no available binding function found")) := by
  refine ⟨?_, ?_, ?_, ?_⟩
  · intro ty h
    obtain ⟨e, he⟩ := buildLoop_dup_type ms 0 emptySt ty hq (by simpa [emptySt] using h)
    exact ⟨e, by rw [NewTraveller, he]⟩
  · intro k h
    obtain ⟨e, he⟩ := buildLoop_dup_kind ms 0 emptySt k hq (by simpa [emptySt] using h)
    exact ⟨e, by rw [NewTraveller, he]⟩
  · intro h
    obtain ⟨e, he⟩ := buildLoop_dup_nil ms 0 emptySt hq (by simpa [emptySt] using h)
    exact ⟨e, by rw [NewTraveller, he]⟩
  · intro h1 h2
    obtain ⟨st2, hl, ho⟩ := buildLoop_no_recorded ms 0 emptySt hq h1 (by simpa [emptySt] using h2)
    rw [NewTraveller, hl]
    simp [ho, emptySt]

/-- The non-container binding signature
`func (receiver) (ctx *TravContext, depth, index int, name string, property P) error`. -/
def sigNormal (prop : PTy) : GoMethodSig :=
  ⟨[⟨"adapter", Kind.struct⟩, tyCtxPtr, tyInt, tyInt, tyString, prop], [tyError]⟩

/-- The container binding signature `func (receiver) (ctx *TravContext,
depth, index, size int, startOrEnd bool, name string, property interface{})
(bool, error)`. -/
def sigCont : GoMethodSig :=
  ⟨[⟨"adapter", Kind.struct⟩, tyCtxPtr, tyInt, tyInt, tyInt, tyBool, tyString, tyIface],
   [tyBool, tyError]⟩

/-- Refutation of C7 as literally stated: the classifier's unguarded
`name[:12]` slice makes any 7-to-11-character method name that matches no
recognized exact name or prefix — here the innocuous exported method
`Compare` — panic with a slice-bounds error inside `NewTraveller`, which
nothing recovers.  Construction therefore crashes (`none`) instead of
returning a duplicate-binding error, even though this method set holds two
accepted operations bound to the same concrete type `int`. -/
theorem C7_short_name_crashes_construction :
    whichName "Compare" = none ∧
    NewTraveller [⟨"Compare", sigNormal tyInt⟩,
      ⟨"ForAssignA", sigNormal tyInt⟩,
      ⟨"ForAssignB", sigNormal tyInt⟩] = none := by
  exact ⟨rfl, rfl⟩

/-- Witness for `C7_construction_rejects_ambiguity`: two `ForAssign` methods
bound to `int`; `ForContainerPtr` and `ForContainerPointer` both bound to the
pointer kind; two `ForNilPtr` operations; and an adapter with only a
`ForNilPtr` method, which records nothing and fails with the source's
zero-bindings message. -/
theorem C7_construction_rejects_ambiguity_witness :
    (∃ e, NewTraveller [⟨"ForAssignA", sigNormal tyInt⟩, ⟨"ForAssignB", sigNormal tyInt⟩] =
      some (.error e)) ∧
    (∃ e, NewTraveller [⟨"ForContainerPtr", sigCont⟩, ⟨"ForContainerPointer", sigCont⟩] =
      some (.error e)) ∧
    (∃ e, NewTraveller [⟨"ForNilPtr", sigNormal tyIface⟩, ⟨"ForNilPtr", sigNormal tyIface⟩] =
      some (.error e)) ∧
    NewTraveller [⟨"ForNilPtr", sigNormal tyIface⟩] =
      some (.error "no available binding function found") := by
  refine ⟨(C7_construction_rejects_ambiguity _ (by decide)).1 tyInt (by decide),
          (C7_construction_rejects_ambiguity _ (by decide)).2.1 Kind.ptr (by decide),
          (C7_construction_rejects_ambiguity _ (by decide)).2.2.1 (by decide),
          (C7_construction_rejects_ambiguity _ (by decide)).2.2.2 (by decide) (by decide)⟩

/-- C9: the `ForIntX` / `ForUintX` classifications are classified and
signature-validated but `NewTraveller`'s recording switch has no case for
them, so an adapter whose only conforming operation is `ForIntX` (or
`ForUintX`) does not build a registry dispatching integers to it — it fails
with "no available binding function found", contradicting the claim. -/
theorem C9_intX_uintX_not_recorded :
    whichName "ForIntX" = some (ItemType.forIntX, Kind.invalid, true) ∧
    isValidWithReceiver ItemType.forIntX (sigNormal tyInt) = true ∧
    NewTraveller [⟨"ForIntX", sigNormal tyInt⟩] =
      some (.error "no available binding function found") ∧
    whichName "ForUintX" = some (ItemType.forUintX, Kind.invalid, true) ∧
    isValidWithReceiver ItemType.forUintX (sigNormal ⟨"uint", Kind.uint⟩) = true ∧
    NewTraveller [⟨"ForUintX", sigNormal ⟨"uint", Kind.uint⟩⟩] =
      some (.error "no available binding function found") := by
  refine ⟨by decide, by decide, ?_, by decide, by decide, ?_⟩ <;> rfl

end Dfpt

namespace Dfpt

/-- `strings.Split(s, ",")` (comma separator), over the character list. -/
def splitCommaChars (cs : List Char) (acc : List Char) : List (List Char) :=
  match cs with
  | [] => [acc.reverse]
  | c :: rest =>
    if c = ',' then acc.reverse :: splitCommaChars rest []
    else splitCommaChars rest (c :: acc)

/-- `strings.Split(s, ",")`. -/
def splitComma (s : String) : List String :=
  (splitCommaChars s.data []).map List.asString

/-- `strings.TrimSpace` (whitespace as `Char.isWhitespace`: space, tab,
newline, carriage return). -/
def goTrimSpace (s : String) : String :=
  (((s.data.dropWhile Char.isWhitespace).reverse.dropWhile Char.isWhitespace).reverse).asString

/-- The numeric value of a non-empty all-digit character list. -/
def digitsVal (cs : List Char) : Option Nat :=
  match cs with
  | [] => none
  | _ =>
    if cs.all Char.isDigit then
      some (cs.foldl (fun a c => a * 10 + (c.toNat - 48)) 0)
    else none

/-- `strconv.Atoi`: optional sign followed by digits, else an error
(`none`). -/
def goAtoi (s : String) : Option Int :=
  match s.data with
  | '+' :: rest => (digitsVal rest).map Int.ofNat
  | '-' :: rest => (digitsVal rest).map (fun n => -(n : Int))
  | cs => (digitsVal cs).map Int.ofNat

/-- One struct field as `rtlpropertier.Properties` inspects it: name,
`PkgPath` (empty means exported), and the `rtl` / `rtlorder` tags. -/
structure RField where
  name : String
  pkgPath : String
  tagRtl : String
  tagRtlOrder : String
deriving DecidableEq, Repr

/-- The field-collection loop of `rtlpropertier.Properties`: skip unexported
fields and fields whose `rtl` tag holds a `-` entry; a non-empty trimmed
`rtlorder` tag must parse to a non-negative order (the source panics
otherwise, modelled as an error with the panic's message); fields without
the tag get order -1. -/
def collectFields (tyName : String) : Nat → List RField → Except String (List Property)
  | _, [] => .ok []
  | i, f :: rest =>
    if f.pkgPath ≠ "" then collectFields tyName (i + 1) rest
    else if (splitComma f.tagRtl).any (fun t => goTrimSpace t = "-") then
      collectFields tyName (i + 1) rest
    else
      let ts := goTrimSpace f.tagRtlOrder
      if ts.length > 0 then
        match goAtoi ts with
        | none =>
          .error ("illegal rtlorder (" ++ ts ++ ") for field " ++ f.name ++ " of type " ++ tyName)
        | some oi =>
          if oi < 0 then
            .error ("illegal rtlorder (" ++ ts ++ ") for field " ++ f.name ++ " of type " ++ tyName)
          else
            match collectFields tyName (i + 1) rest with
            | .error e => .error e
            | .ok ps => .ok (⟨(i : Int), f.name, oi⟩ :: ps)
      else
        match collectFields tyName (i + 1) rest with
        | .error e => .error e
        | .ok ps => .ok (⟨(i : Int), f.name, -1⟩ :: ps)

/-- `sort.SliceStable`'s comparator on `(IndexForReal, Index)`, as a total
`le` (the `Index` components are distinct declaration positions, so the key
is a total order and any correct sort yields the stable-sort result). -/
def propLe (a b : Property) : Bool :=
  (a.IndexForReal < b.IndexForReal) || (a.IndexForReal == b.IndexForReal && a.Index ≤ b.Index)

/-- Sorted insertion for `sortProps`. -/
def insertProp (a : Property) : List Property → List Property
  | [] => [a]
  | b :: l => if propLe a b then a :: b :: l else b :: insertProp a l

/-- The `sort.SliceStable` call of `rtlpropertier.Properties`. -/
def sortProps : List Property → List Property
  | [] => []
  | a :: l => insertProp a (sortProps l)

/-- The defaulting/validation loop of `rtlpropertier.Properties`: position
`i` with an unset (`< 0`) effective order receives order `i`; an explicit
effective order smaller than `i` is the source's panic (an error here); an
explicit order `≥ i` is kept verbatim. -/
def assignOrders (tyName : String) : Nat → List Property → Except String (List Property)
  | _, [] => .ok []
  | i, p :: rest =>
    if p.IndexForReal < 0 then
      match assignOrders tyName (i + 1) rest with
      | .error e => .error e
      | .ok ps => .ok ({ p with IndexForReal := (i : Int) } :: ps)
    else if p.IndexForReal < (i : Int) then
      .error ("illegal rtlorder (" ++ toString p.IndexForReal ++ ") for field " ++ p.Name ++
        " of type " ++ tyName ++ ", should >= " ++ toString i)
    else
      match assignOrders tyName (i + 1) rest with
      | .error e => .error e
      | .ok ps => .ok (p :: ps)

/-- `rtlpropertier.Properties`: collect tagged exported fields, stable-sort
by `(IndexForReal, Index)`, default/validate the effective orders, and
return the size (last effective order plus one) with the member list. -/
def rtlProperties (tyName : String) (fields : List RField) : Except String (Int × List Property) :=
  match collectFields tyName 0 fields with
  | .error e => .error e
  | .ok collected =>
    match assignOrders tyName 0 (sortProps collected) with
    | .error e => .error e
    | .ok fs =>
      .ok (match fs.getLast? with
           | none => 0
           | some p => p.IndexForReal + 1, fs)

/-- The spec's example member list: `A(order=0)`, `B(no explicit order)`,
`C(order=3)`, `D(order=4)`, `E(order=5)`, in declaration order. -/
def c8SpecFields : List RField :=
  [⟨"A", "", "", "0"⟩, ⟨"B", "", "", ""⟩, ⟨"C", "", "", "3"⟩, ⟨"D", "", "", "4"⟩,
   ⟨"E", "", "", "5"⟩]

/-- The member list of the test fixture `Inner0`: all five exported fields
explicitly ordered (declaration order `A:0, E:5, B:1, C:3, D:4`), plus two
unexported fields. -/
def c8TestFields : List RField :=
  [⟨"A", "", "", "0"⟩, ⟨"E", "", "", "5"⟩, ⟨"B", "", "", "1"⟩, ⟨"C", "", "", "3"⟩,
   ⟨"D", "", "", "4"⟩, ⟨"x", "dfpt", "", ""⟩, ⟨"y", "dfpt", "", ""⟩]

/-- C8 counterexample: on the claim's own example — `B` carrying no explicit
order — the resolver does not return the members in order `A,B,C,D,E`: the
unset order sorts as `-1`, before `A`'s explicit `0`, so after stable
sorting `A` sits at position 1 with explicit order 0 and the resolver fails
with the source's non-recoverable construction error. -/
theorem C8_spec_example_is_construction_error :
    rtlProperties "Inner0" c8SpecFields =
      .error "illegal rtlorder (0) for field A of type Inner0, should >= 1" := by
  rfl

/-- C8 (amended): a member without an explicit effective order sorts before
every explicitly ordered member (its order reads -1), so the claim's example
needs `B` explicitly ordered 1 — exactly the tested fixture `Inner0` — and
then the resolver returns the members in order `A,B,C,D,E` with the explicit
effective orders `0,1,3,4,5` unchanged and count 6 = largest effective order
plus one, exceeding the member count 5.  In general (second conjunct) a
member with an explicit (non-negative) effective order is returned verbatim,
never reassigned; and (third conjunct) an explicit effective order smaller
than the member's position after stable sorting makes the resolver fail with
a non-recoverable construction error. -/
theorem C8_resolver_orders :
    (rtlProperties "Inner0" c8TestFields =
      .ok (6, [⟨0, "A", 0⟩, ⟨2, "B", 1⟩, ⟨3, "C", 3⟩, ⟨4, "D", 4⟩, ⟨1, "E", 5⟩])) ∧
    (∀ (ty : String) (i : Nat) (ps qs : List Property),
      assignOrders ty i ps = .ok qs →
      ∀ (j : Nat) (p : Property), ps.get? j = some p → 0 ≤ p.IndexForReal →
        qs.get? j = some p) ∧
    (∀ (ty : String) (i : Nat) (ps : List Property) (j : Nat) (p : Property),
      ps.get? j = some p → 0 ≤ p.IndexForReal → p.IndexForReal < (i : Int) + (j : Int) →
      ∃ e, assignOrders ty i ps = .error e) := by
  refine ⟨by rfl, ?_, ?_⟩
  · intro ty i ps
    induction ps generalizing i with
    | nil =>
      intro qs _ j p hj
      simp at hj
    | cons q rest ih =>
      intro qs hok j p hj hpos
      rw [assignOrders] at hok
      by_cases h1 : q.IndexForReal < 0
      · rw [if_pos h1] at hok
        rcases hrec : assignOrders ty (i + 1) rest with e | ps2
        · rw [hrec] at hok
          cases hok
        · rw [hrec, Except.ok.injEq] at hok
          subst hok
          cases j with
          | zero =>
            simp at hj
            rw [← hj] at hpos
            omega
          | succ j2 =>
            rw [List.get?_cons_succ] at hj ⊢
            exact ih (i + 1) ps2 hrec j2 p hj hpos
      · rw [if_neg h1] at hok
        by_cases h2 : q.IndexForReal < (i : Int)
        · rw [if_pos h2] at hok
          cases hok
        · rw [if_neg h2] at hok
          rcases hrec : assignOrders ty (i + 1) rest with e | ps2
          · rw [hrec] at hok
            cases hok
          · rw [hrec, Except.ok.injEq] at hok
            subst hok
            cases j with
            | zero => simpa using hj
            | succ j2 =>
              rw [List.get?_cons_succ] at hj ⊢
              exact ih (i + 1) ps2 hrec j2 p hj hpos
  · intro ty i ps
    induction ps generalizing i with
    | nil =>
      intro j p hj
      simp at hj
    | cons q rest ih =>
      intro j p hj hpos hlt
      rw [assignOrders]
      cases j with
      | zero =>
        have hqp : q = p := by simpa using hj
        rw [hqp]
        have h1 : ¬ p.IndexForReal < 0 := by omega
        rw [if_neg h1]
        have h2 : p.IndexForReal < (i : Int) := by
          simp at hlt
          omega
        rw [if_pos h2]
        exact ⟨_, rfl⟩
      | succ j2 =>
        rw [List.get?_cons_succ] at hj
        have hlt2 : p.IndexForReal < ((i + 1 : Nat) : Int) + (j2 : Int) := by
          push_cast at hlt ⊢
          omega
        obtain ⟨e, he⟩ := ih (i + 1) j2 p hj hpos hlt2
        by_cases h1 : q.IndexForReal < 0
        · rw [if_pos h1, he]
          exact ⟨e, rfl⟩
        · rw [if_neg h1]
          by_cases h2 : q.IndexForReal < (i : Int)
          · rw [if_pos h2]
            exact ⟨_, rfl⟩
          · rw [if_neg h2, he]
            exact ⟨e, rfl⟩

/-- Witness for `C8_resolver_orders`: the verbatim conjunct at a singleton
member with explicit order 2 at position 0, and the error conjunct at a
singleton member with explicit order 0 processed from position 1. -/
theorem C8_resolver_orders_witness :
    ([(⟨0, "A", 2⟩ : Property)].get? 0 = some ⟨0, "A", 2⟩) ∧
    (∃ e, assignOrders "T" 1 [⟨0, "A", 0⟩] = .error e) :=
  ⟨C8_resolver_orders.2.1 "T" 0 [⟨0, "A", 2⟩] [⟨0, "A", 2⟩] (by rfl) 0 ⟨0, "A", 2⟩
      (by rfl) (by decide),
   C8_resolver_orders.2.2 "T" 1 [⟨0, "A", 0⟩] 0 ⟨0, "A", 0⟩ (by rfl) (by decide)
      (by decide)⟩

end Dfpt
